import Mathlib

/-!
# Corpus queues (src/src/queue.c) and process control (src/src/libos.c)

A shallow embedding of the queue layer: queue entries, the base queue with its
round-robin cursor and exported entry table, feedback queues and the global
queue.  C objects that are reached through pointers live in an explicit memory
`Mem`, addressed by `Ptr`; a null pointer is `none`.  A function that receives a
`base_queue_t *` and only writes through that pointer takes the pointee as a
value and returns the updated value.  A call that dereferences a null pointer,
indexes a pointer array with a negative index, or stores outside the entry
table, has no result (`none`).
Calls that leave queue.c (warnings, mutator hooks, the broadcast channel) are
recorded as events, in program order; what the called code does on its side is
not part of queue.c.

The struct declarations (queue.h, engine.h, stage.h, mutator.h, llmp.h) and the
constant `MAP_SIZE` are not among the sources at hand.  The structs below carry
the fields that queue.c reads or writes.  The counters `size`, `current`,
`stages_num`, `mutators_count` and `feedback_queues_num` are natural numbers and
engine ids are integers.  The entry table is one region of `MAP_SIZE` bytes
(queue.c:124); the number of entry pointers that fit into it is the parameter
`Mem.map_slots`, and the store of queue.c:207, which the code does not guard,
has a result only at an index below it.

Where the order of the effects inside one call matters, the call is also given
as the list of its effects in program order (`afl_add_to_queue_default_steps`),
which ends in `add_step.fault` where the call has no result, and the two
descriptions are proved to agree.  Process control (`fork`,
`waitpid`) takes the result of the platform call as an argument.
-/

namespace LibAFL

/-- Addresses of C objects. -/
abbrev Ptr := Nat

/-- Return codes used by the constructors of queue.c. -/
inductive afl_ret_t where
  | AFL_RET_SUCCESS
  | AFL_RET_ALLOC
deriving DecidableEq, Repr

/-- Code addresses that queue.c stores in function tables.  `user k` is any
function that is not defined in queue.c. -/
inductive fn_ptr where
  | afl_add_to_queue_default
  | afl_get_queue_base_default
  | afl_get_base_queue_size_default
  | afl_get_dirpath_default
  | afl_get_names_id_default
  | afl_get_save_to_files_default
  | afl_set_directory_default
  | afl_set_engine_base_queue_default
  | afl_get_next_base_queue_default
  | afl_set_engine_global_queue_default
  | afl_get_next_global_queue_default
  | afl_add_feedback_queue_default
  | afl_global_schedule_default
  | user (k : Nat)
deriving DecidableEq, Repr

/-- The fields of `queue_entry_t` that queue.c reads or writes. -/
structure queue_entry_t where
  input : Option Ptr
  filename : Option String
  queue : Option Ptr
  next : Option Ptr
  prev : Option Ptr
  parent : Option Ptr
  children : List Ptr
  children_num : Nat
deriving DecidableEq, Repr

/-- The function table `funcs` of a base queue. -/
structure base_queue_functions where
  add_to_queue : fn_ptr
  get_queue_base : fn_ptr
  get_size : fn_ptr
  get_dirpath : fn_ptr
  get_names_id : fn_ptr
  get_save_to_files : fn_ptr
  set_directory : fn_ptr
  set_engine : fn_ptr
  get_next_in_queue : fn_ptr
deriving DecidableEq, Repr

/-- The struct `base_queue_t`.  `queue_entries` is the pointer to the exported
entry table in shared memory: `none` is the null pointer, `some t` a table whose
slot `i` holds the entry pointer `t i` (`none` for NULL). -/
structure base_queue_t where
  queue_entries : Option (Nat → Option Ptr)
  base : Option Ptr
  current : Nat
  size : Nat
  engine_id : Int
  engine : Option Ptr
  dirpath : Option String
  names_id : Nat
  save_to_files : Bool
  fuzz_started : Bool
  shared_mem : Option Ptr
  funcs : base_queue_functions

/-- The struct `feedback_queue_t`: a base queue, the owning feedback, a name. -/
structure feedback_queue_t where
  base : base_queue_t
  feedback : Option Ptr
  name : Option String

/-- The function table `extra_funcs` of a global queue. -/
structure global_queue_functions where
  add_feedback_queue : fn_ptr
  schedule : fn_ptr
deriving DecidableEq, Repr

/-- The struct `global_queue_t`: a base queue, the array of feedback queue
pointers and the number of slots in use. -/
structure global_queue_t where
  base : base_queue_t
  feedback_queues : Nat → Option Ptr
  feedback_queues_num : Nat
  extra_funcs : global_queue_functions

/-- The struct `feedback_t` (include/libfeedback.h); the function table is not
used by queue.c. -/
structure feedback_t where
  queue : Option Ptr
  metadata : Option Ptr
  functions : Option Ptr
deriving DecidableEq, Repr

/-- A mutator, as far as queue.c looks at it: the optional hook
`funcs.custom_queue_new_entry` (`none` is a null function pointer). -/
structure mutator_t where
  custom_queue_new_entry : Option Nat
deriving DecidableEq, Repr

/-- A fuzzing stage, as far as queue.c looks at it. -/
structure fuzzing_stage_t where
  mutators : Nat → Ptr
  mutators_count : Nat

/-- The struct `fuzz_one` (include/libfuzzone.h): the stage array and its
length. -/
structure fuzz_one_t where
  engine : Option Ptr
  stages : Nat → Ptr
  stages_num : Nat

/-- The engine, as far as queue.c looks at it. -/
structure engine_t where
  id : Int
  fuzz_one : Option Ptr
  llmp_client : Option Ptr
  rnd : Nat
  global_queue : Option Ptr

/-- Message tags of the broadcast channel that queue.c uses. -/
inductive llmp_tag where
  | LLMP_TAG_NEW_QUEUE_ENTRY
deriving DecidableEq, Repr

/-- A broadcast message: its tag and, in `buf`, one entry header by value. -/
structure llmp_message_t where
  tag : llmp_tag
  buf : queue_entry_t
deriving DecidableEq, Repr

/-- Calls that leave queue.c. -/
inductive Event where
  | WARNF (msg : String)
  | custom_queue_new_entry (hook : Nat) (mutator : Ptr) (entry : Ptr)
  | llmp_client_send (client : Option Ptr) (msg : llmp_message_t)
  | afl_input_delete (input : Option Ptr)
deriving DecidableEq, Repr

/-- The objects queue.c reaches through pointers.  `map_slots` is the number of
entry pointers that fit into the `MAP_SIZE` bytes of an entry table
(`MAP_SIZE / sizeof(queue_entry_t *)`, 8192 for a `MAP_SIZE` of 65536 and
pointers of 8 bytes); the constant is not among the sources and is a parameter
here. -/
structure Mem where
  map_slots : Nat
  entries : Ptr → queue_entry_t
  engines : Ptr → engine_t
  fuzz_ones : Ptr → fuzz_one_t
  stages : Ptr → fuzzing_stage_t
  mutators : Ptr → mutator_t
  feedbacks : Ptr → feedback_t
  feedback_queues : Ptr → feedback_queue_t
  global_queues : Ptr → global_queue_t

/-! ## Base queue -/

/-- The function table installed by `afl_base_queue_init`. -/
def base_queue_default_funcs : base_queue_functions where
  add_to_queue := fn_ptr.afl_add_to_queue_default
  get_queue_base := fn_ptr.afl_get_queue_base_default
  get_size := fn_ptr.afl_get_base_queue_size_default
  get_dirpath := fn_ptr.afl_get_dirpath_default
  get_names_id := fn_ptr.afl_get_names_id_default
  get_save_to_files := fn_ptr.afl_get_save_to_files_default
  set_directory := fn_ptr.afl_set_directory_default
  set_engine := fn_ptr.afl_set_engine_base_queue_default
  get_next_in_queue := fn_ptr.afl_get_next_base_queue_default

/-- `afl_base_queue_init`.  `calloc_result` is what `calloc` returns for the
shared-memory descriptor and `shmem` what `afl_shmem_init` returns for the
`MAP_SIZE` region (the table it maps, or null).  The fields `engine`,
`engine_id` and `names_id` are not written. -/
def afl_base_queue_init (queue : base_queue_t) (calloc_result : Option Ptr)
    (shmem : Option (Nat → Option Ptr)) : afl_ret_t × base_queue_t :=
  let q1 : base_queue_t :=
    { queue with
      save_to_files := false, dirpath := none, fuzz_started := false, size := 0,
      base := none, current := 0, funcs := base_queue_default_funcs,
      shared_mem := calloc_result }
  match calloc_result with
  | none => (afl_ret_t.AFL_RET_ALLOC, q1)
  | some _ =>
    let q2 : base_queue_t := { q1 with queue_entries := shmem }
    match shmem with
    | none => (afl_ret_t.AFL_RET_ALLOC, q2)
    | some _ => (afl_ret_t.AFL_RET_SUCCESS, q2)

/-- The inner loop of `afl_add_to_queue_default` (lines 192-201): the hook calls
made for one stage, for `j = 0 .. mutators_count - 1`. -/
def stage_new_entry_hooks (m : Mem) (stage : Ptr) (entry : Ptr) : List Event :=
  (List.range (m.stages stage).mutators_count).filterMap fun j =>
    let mutator := (m.stages stage).mutators j
    match (m.mutators mutator).custom_queue_new_entry with
    | some hook => some (Event.custom_queue_new_entry hook mutator entry)
    | none => none

/-- The outer loop of `afl_add_to_queue_default` (lines 188-203): the hook calls
made for `i = 0 .. stages_num - 1`. -/
def fuzz_one_new_entry_hooks (m : Mem) (fuzz_one : Ptr) (entry : Ptr) : List Event :=
  ((List.range (m.fuzz_ones fuzz_one).stages_num).map fun i =>
    stage_new_entry_hooks m ((m.fuzz_ones fuzz_one).stages i) entry).flatten

/-- Line 207 of queue.c: `queue->queue_entries[queue->size] = entry`. -/
def add_store_entry (queue : base_queue_t) (table : Nat → Option Ptr) (entry : Ptr) :
    base_queue_t :=
  { queue with queue_entries := some (Function.update table queue.size (some entry)) }

/-- Modelled from the spec: the broadcast client of the engine
(`alloc_next(size) → msg`, `send(msg)`), which is not part of these sources.
Lines 211-216 of queue.c: the message allocated, tagged, filled with a copy of
`*entry` and sent. -/
def add_broadcast (m : Mem) (engine : Ptr) (entry : Ptr) : Event :=
  Event.llmp_client_send (m.engines engine).llmp_client
    { tag := llmp_tag.LLMP_TAG_NEW_QUEUE_ENTRY, buf := m.entries entry }

/-- Line 218 of queue.c: `queue->size++`. -/
def add_incr_size (queue : base_queue_t) : base_queue_t :=
  { queue with size := queue.size + 1 }

/-- `afl_add_to_queue_default`: the updated queue and the events of the call,
in order.  The store of line 207 is not guarded in the code: at an index that
is not below `map_slots` it is a write outside the `MAP_SIZE` region of the
table, and the call has no result. -/
def afl_add_to_queue_default (m : Mem) (queue : base_queue_t) (entry : Ptr) :
    Option (base_queue_t × List Event) :=
  if (m.entries entry).input = none then
    some (queue, [Event.WARNF "Queue entry with NULL input"])
  else
    match queue.engine with
    | none => none
    | some engine =>
      let hooks : List Event :=
        match (m.engines engine).fuzz_one with
        | some fuzz_one => fuzz_one_new_entry_hooks m fuzz_one entry
        | none => []
      match queue.queue_entries with
      | none => none
      | some table =>
        if queue.size < m.map_slots then
          let q1 := add_store_entry queue table entry
          let msg := add_broadcast m engine entry
          some (add_incr_size q1, hooks ++ [msg])
        else
          none

/-- `afl_get_queue_base_default`. -/
def afl_get_queue_base_default (queue : base_queue_t) : Option Ptr :=
  queue.base

/-- `afl_get_base_queue_size_default`. -/
def afl_get_base_queue_size_default (queue : base_queue_t) : Nat :=
  queue.size

/-- `afl_get_dirpath_default`. -/
def afl_get_dirpath_default (queue : base_queue_t) : Option String :=
  queue.dirpath

/-- `afl_get_names_id_default`. -/
def afl_get_names_id_default (queue : base_queue_t) : Nat :=
  queue.names_id

/-- `afl_get_save_to_files_default`. -/
def afl_get_save_to_files_default (queue : base_queue_t) : Bool :=
  queue.save_to_files

/-- `afl_set_directory_default`; `strcmp(dirpath, "")` is zero exactly for the
empty string. -/
def afl_set_directory_default (queue : base_queue_t) (new_dirpath : Option String) :
    base_queue_t :=
  let dirpath : String :=
    match new_dirpath with
    | some p => p
    | none => ""
  let q1 : base_queue_t := { queue with dirpath := some dirpath }
  let q2 : base_queue_t := { q1 with save_to_files := true }
  if dirpath = "" then { q2 with save_to_files := false } else q2

/-- `afl_set_engine_base_queue_default`. -/
def afl_set_engine_base_queue_default (m : Mem) (queue : base_queue_t)
    (engine : Option Ptr) : base_queue_t :=
  let q1 : base_queue_t := { queue with engine := engine }
  match engine with
  | some e => { q1 with engine_id := (m.engines e).id }
  | none => q1

/-- `afl_get_next_base_queue_default`: the returned entry pointer (`none` is
NULL) and the updated queue. -/
def afl_get_next_base_queue_default (queue : base_queue_t) (engine_id : Int) :
    Option (Option Ptr × base_queue_t) :=
  if queue.size ≠ 0 then
    match queue.queue_entries with
    | none => none
    | some table =>
      let current := table queue.current
      if engine_id ≠ queue.engine_id then
        some (current, queue)
      else if queue.current + 1 = queue.size then
        some (current, { queue with current := 0 })
      else
        some (current, { queue with current := queue.current + 1 })
  else
    some (none, queue)

/-! ## Feedback queue and global queue -/

/-- Functions that are not defined in queue.c and are reached from it: the
random generator of the engine (`afl_rand_below`, on the generator state and the
bound) and the functions a user may install in the function tables, by the
number `k` of `fn_ptr.user k`. -/
structure Outside where
  afl_rand_below : Nat → Nat → Nat × Nat
  schedule : Nat → Mem → Ptr → Int × Mem
  get_next_in_queue : Nat → base_queue_t → Int → Option Ptr × base_queue_t
  set_engine : Nat → Mem → base_queue_t → Option Ptr → base_queue_t

/-- Write through a `feedback_queue_t *`. -/
def Mem.set_feedback_queue (m : Mem) (p : Ptr) (v : feedback_queue_t) : Mem :=
  { m with feedback_queues := Function.update m.feedback_queues p v }

/-- Write through a `global_queue_t *`. -/
def Mem.set_global_queue (m : Mem) (p : Ptr) (v : global_queue_t) : Mem :=
  { m with global_queues := Function.update m.global_queues p v }

/-- Write through a `feedback_t *`. -/
def Mem.set_feedback (m : Mem) (p : Ptr) (v : feedback_t) : Mem :=
  { m with feedbacks := Function.update m.feedbacks p v }

/-- Write through an `engine_t *`. -/
def Mem.set_engine (m : Mem) (p : Ptr) (v : engine_t) : Mem :=
  { m with engines := Function.update m.engines p v }

/-- `afl_feedback_queue_init`; the result of the embedded
`afl_base_queue_init` is dropped, as in the source. -/
def afl_feedback_queue_init (m : Mem) (feedback_queue : Ptr) (feedback : Option Ptr)
    (name : Option String) (calloc_result : Option Ptr)
    (shmem : Option (Nat → Option Ptr)) : afl_ret_t × Mem :=
  let fq0 := m.feedback_queues feedback_queue
  let m1 := m.set_feedback_queue feedback_queue
    { fq0 with base := (afl_base_queue_init fq0.base calloc_result shmem).2 }
  let m2 := m1.set_feedback_queue feedback_queue
    { (m1.feedback_queues feedback_queue) with feedback := feedback }
  let m3 :=
    match feedback with
    | some f => m2.set_feedback f { (m2.feedbacks f) with queue := some feedback_queue }
    | none => m2
  let name : String :=
    match name with
    | some n => n
    | none => ""
  (afl_ret_t.AFL_RET_SUCCESS,
    m3.set_feedback_queue feedback_queue
      { (m3.feedback_queues feedback_queue) with name := some name })

/-- `afl_global_queue_init`; the result of the embedded `afl_base_queue_init`
is dropped, as in the source. -/
def afl_global_queue_init (m : Mem) (global_queue : Ptr) (calloc_result : Option Ptr)
    (shmem : Option (Nat → Option Ptr)) : afl_ret_t × Mem :=
  let gq0 := m.global_queues global_queue
  let b1 := (afl_base_queue_init gq0.base calloc_result shmem).2
  let b2 : base_queue_t :=
    { b1 with funcs := { b1.funcs with set_engine := fn_ptr.afl_set_engine_global_queue_default } }
  let b3 : base_queue_t :=
    { b2 with
      funcs := { b2.funcs with get_next_in_queue := fn_ptr.afl_get_next_global_queue_default } }
  (afl_ret_t.AFL_RET_SUCCESS,
    m.set_global_queue global_queue
      { gq0 with
        base := b3, feedback_queues_num := 0,
        extra_funcs :=
          { add_feedback_queue := fn_ptr.afl_add_feedback_queue_default,
            schedule := fn_ptr.afl_global_schedule_default } })

/-- The call `queue->funcs.set_engine(queue, engine)` on the base of a feedback
queue.  A function of queue.c that expects another object has no result. -/
def call_set_engine (o : Outside) (m : Mem) (queue : base_queue_t) (engine : Option Ptr) :
    Option base_queue_t :=
  match queue.funcs.set_engine with
  | fn_ptr.afl_set_engine_base_queue_default =>
    some (afl_set_engine_base_queue_default m queue engine)
  | fn_ptr.user k => some (o.set_engine k m queue engine)
  | _ => none

/-- `afl_add_feedback_queue_default`. -/
def afl_add_feedback_queue_default (o : Outside) (m : Mem) (global_queue : Ptr)
    (feedback_queue : Ptr) : Option Mem :=
  let gq0 := m.global_queues global_queue
  let m1 := m.set_global_queue global_queue
    { gq0 with
      feedback_queues :=
        Function.update gq0.feedback_queues gq0.feedback_queues_num (some feedback_queue) }
  let engine := (m1.global_queues global_queue).base.engine
  match call_set_engine o m1 (m1.feedback_queues feedback_queue).base engine with
  | none => none
  | some b =>
    let m2 := m1.set_feedback_queue feedback_queue
      { (m1.feedback_queues feedback_queue) with base := b }
    let gq2 := m2.global_queues global_queue
    some (m2.set_global_queue global_queue
      { gq2 with feedback_queues_num := gq2.feedback_queues_num + 1 })

/-- `afl_global_schedule_default`: draws below `feedback_queues_num` from the
generator of the bound engine, whose state advances. -/
def afl_global_schedule_default (o : Outside) (m : Mem) (queue : Ptr) : Option (Int × Mem) :=
  match (m.global_queues queue).base.engine with
  | none => none
  | some e =>
    let r := o.afl_rand_below (m.engines e).rnd (m.global_queues queue).feedback_queues_num
    some ((r.1 : Int), m.set_engine e { (m.engines e) with rnd := r.2 })

/-- The call `global_queue->extra_funcs.schedule(global_queue)`. -/
def call_schedule (o : Outside) (m : Mem) (global_queue : Ptr) : Option (Int × Mem) :=
  match (m.global_queues global_queue).extra_funcs.schedule with
  | fn_ptr.afl_global_schedule_default => afl_global_schedule_default o m global_queue
  | fn_ptr.user k => some (o.schedule k m global_queue)
  | _ => none

/-- The call `queue->funcs.get_next_in_queue(queue, engine_id)` on the base of a
feedback queue.  A function of queue.c that expects another object has no
result. -/
def call_get_next_in_queue (o : Outside) (queue : base_queue_t) (engine_id : Int) :
    Option (Option Ptr × base_queue_t) :=
  match queue.funcs.get_next_in_queue with
  | fn_ptr.afl_get_next_base_queue_default => afl_get_next_base_queue_default queue engine_id
  | fn_ptr.user k => some (o.get_next_in_queue k queue engine_id)
  | _ => none

/-- The call `afl_get_next_base_queue_default(queue, engine_id)` where `queue`
is the base of the global queue at `global_queue`. -/
def global_base_get_next (m : Mem) (global_queue : Ptr) (engine_id : Int) :
    Option (Option Ptr × Mem) :=
  match afl_get_next_base_queue_default (m.global_queues global_queue).base engine_id with
  | none => none
  | some (entry, b) =>
    some (entry, m.set_global_queue global_queue { (m.global_queues global_queue) with base := b })

/-- `afl_get_next_global_queue_default`: the returned entry pointer (`none` is
NULL) and the memory after the call. -/
def afl_get_next_global_queue_default (o : Outside) (m : Mem) (queue : Ptr)
    (engine_id : Int) : Option (Option Ptr × Mem) :=
  match call_schedule o m queue with
  | none => none
  | some (fbck_idx, m1) =>
    if fbck_idx ≠ -1 then
      if fbck_idx < 0 then none
      else
        match (m1.global_queues queue).feedback_queues fbck_idx.toNat with
        | none => none
        | some feedback_queue =>
          match call_get_next_in_queue o (m1.feedback_queues feedback_queue).base engine_id with
          | none => none
          | some (next_entry, b) =>
            let m2 := m1.set_feedback_queue feedback_queue
              { (m1.feedback_queues feedback_queue) with base := b }
            match next_entry with
            | some e => some (some e, m2)
            | none => global_base_get_next m2 queue engine_id
    else global_base_get_next m1 queue engine_id

/-- The state of a usable base queue: the entry table is mapped, the cursor is
below the size, or 0 when the queue is empty, and each slot below the size holds
an entry. -/
def queue_well_formed (q : base_queue_t) : Prop :=
  ∃ tbl, q.queue_entries = some tbl ∧
    ((q.size = 0 → q.current = 0) ∧ (q.size ≠ 0 → q.current < q.size)) ∧
    ∀ i, i < q.size → tbl i ≠ none

/-! ## Sequences of calls and sample objects -/

/-- The calls `add(e_0)`, ..., `add(e_(n-1))` in that order: the final queue and
all events. -/
def add_all (m : Mem) (queue : base_queue_t) : List Ptr → Option (base_queue_t × List Event)
  | [] => some (queue, [])
  | e :: es =>
    match afl_add_to_queue_default m queue e with
    | none => none
    | some (q1, ev1) =>
      match add_all m q1 es with
      | none => none
      | some (q2, ev2) => some (q2, ev1 ++ ev2)

/-- Consecutive calls of `afl_get_next_base_queue_default`, one for each engine
id of the list: the returned entries, in call order, and the final queue. -/
def get_next_calls (queue : base_queue_t) : List Int → Option (List (Option Ptr) × base_queue_t)
  | [] => some ([], queue)
  | engine_id :: ids =>
    match afl_get_next_base_queue_default queue engine_id with
    | none => none
    | some (r, q1) =>
      match get_next_calls q1 ids with
      | none => none
      | some (rs, q2) => some (r :: rs, q2)

/-- A sample base queue: three entries, at the addresses 1, 2, 3, the cursor on
the first, bound to the engine at address 0, whose id is 7. -/
def sample_queue : base_queue_t where
  queue_entries := some (fun i => if i < 3 then some (i + 1) else none)
  base := none
  current := 0
  size := 3
  engine_id := 7
  engine := some 0
  dirpath := none
  names_id := 0
  save_to_files := false
  fuzz_started := false
  shared_mem := some 0
  funcs := base_queue_default_funcs

/-- A sample memory.  The entry at address 0 has a null input, every other
entry has an input.  Every engine has id 7 and a driver with two stages of three
mutators each, of which the mutators at even addresses define the hook.  The
feedback queue at address 3 is the sample queue, every other feedback queue is
empty.  The global queue at address g holds the single entry at address 5 and
the feedback queues at the addresses 2g+1 and 2g+2; its schedule hook is the
user function 0. -/
def sample_mem : Mem where
  map_slots := 8192
  entries := fun p =>
    { input := if p = 0 then none else some (100 + p), filename := none, queue := none,
      next := none, prev := none, parent := none, children := [], children_num := 0 }
  engines := fun _ =>
    { id := 7, fuzz_one := some 0, llmp_client := some 1, rnd := 0, global_queue := none }
  fuzz_ones := fun _ => { engine := none, stages := fun i => i, stages_num := 2 }
  stages := fun s => { mutators := fun j => 10 * s + j, mutators_count := 3 }
  mutators := fun p => { custom_queue_new_entry := if p % 2 = 0 then some p else none }
  feedbacks := fun _ => { queue := none, metadata := none, functions := none }
  feedback_queues := fun p =>
    { base :=
        if p = 3 then sample_queue
        else
          { queue_entries := some (fun _ => none), base := none, current := 0, size := 0,
            engine_id := 7, engine := some 0, dirpath := none, names_id := 0,
            save_to_files := false, fuzz_started := false, shared_mem := some 0,
            funcs := base_queue_default_funcs },
      feedback := none, name := some "" }
  global_queues := fun g =>
    { base :=
        { queue_entries := some (fun i => if i = 0 then some 5 else none), base := none,
          current := 0, size := 1, engine_id := 7, engine := some 0, dirpath := none,
          names_id := 0, save_to_files := false, fuzz_started := false, shared_mem := some 0,
          funcs :=
            { base_queue_default_funcs with
              set_engine := fn_ptr.afl_set_engine_global_queue_default,
              get_next_in_queue := fn_ptr.afl_get_next_global_queue_default } },
      feedback_queues := fun i => if i < 2 then some (2 * g + i + 1) else none,
      feedback_queues_num := 2,
      extra_funcs :=
        { add_feedback_queue := fn_ptr.afl_add_feedback_queue_default,
          schedule := fn_ptr.user 0 } }

/-- Sample user functions: the schedule hook returns `idx` and writes nothing. -/
def sample_outside (idx : Int) : Outside where
  afl_rand_below := fun s n => (s % n, s + 1)
  schedule := fun _ m _ => (idx, m)
  get_next_in_queue := fun _ q _ => (none, q)
  set_engine := fun _ _ q _ => q

/-- A base queue object before `afl_base_queue_init` has run on it. -/
def raw_queue : base_queue_t where
  queue_entries := none
  base := some 9
  current := 4
  size := 2
  engine_id := 0
  engine := none
  dirpath := some "old"
  names_id := 0
  save_to_files := true
  fuzz_started := true
  shared_mem := none
  funcs := base_queue_default_funcs

/-! ## The effects of `afl_add_to_queue_default`, one by one -/

/-- One effect of a call of `afl_add_to_queue_default`: a call that leaves
queue.c, the write of line 207 to a slot of the entry table, or the increment
of line 218.  `fault` closes the effects of a call that has no result: the next
statement dereferences a null pointer or stores outside the entry table. -/
inductive add_step where
  | call (ev : Event)
  | store_entry (index : Nat) (entry : Ptr)
  | incr_size
  | fault
deriving DecidableEq, Repr

/-- What one effect does to the queue. -/
def add_step.apply (queue : base_queue_t) : add_step → base_queue_t
  | add_step.call _ => queue
  | add_step.store_entry index entry =>
    match queue.queue_entries with
    | some table => { queue with queue_entries := some (Function.update table index (some entry)) }
    | none => queue
  | add_step.incr_size => { queue with size := queue.size + 1 }
  | add_step.fault => queue

/-- The call that one effect makes, if it is a call. -/
def add_step.event : add_step → Option Event
  | add_step.call ev => some ev
  | _ => none

/-- The queue after a sequence of effects. -/
def run_steps (queue : base_queue_t) (steps : List add_step) : base_queue_t :=
  steps.foldl add_step.apply queue

/-- Lines 207-218 of queue.c as effects: the table write of line 207, the send
of lines 211-216 and the increment of line 218.  The store is not guarded in
the code; through a null table pointer, or at an index that is not below
`map_slots`, it is not a write to a slot of the table and the call ends in
`fault`. -/
def add_store_send_incr (m : Mem) (queue : base_queue_t) (engine : Ptr) (entry : Ptr) :
    List add_step :=
  match queue.queue_entries with
  | none => [add_step.fault]
  | some _ =>
    if queue.size < m.map_slots then
      [add_step.store_entry queue.size entry,
        add_step.call (add_broadcast m engine entry),
        add_step.incr_size]
    else
      [add_step.fault]

/-- `afl_add_to_queue_default` as the sequence of its effects, in program order:
the warning alone for a null input; otherwise the hook calls of lines 183-205
(a fault at once if the engine pointer is null), then the effects of lines
207-218. -/
def afl_add_to_queue_default_steps (m : Mem) (queue : base_queue_t) (entry : Ptr) :
    List add_step :=
  if (m.entries entry).input = none then
    [add_step.call (Event.WARNF "Queue entry with NULL input")]
  else
    match queue.engine with
    | none => [add_step.fault]
    | some engine =>
      let hooks : List Event :=
        match (m.engines engine).fuzz_one with
        | some fuzz_one => fuzz_one_new_entry_hooks m fuzz_one entry
        | none => []
      hooks.map add_step.call ++ add_store_send_incr m queue engine entry

/-- The mutator in slot j of stage i of a driver, for the pair (i, j). -/
def mutator_at (m : Mem) (fuzz_one : Ptr) (slot : Nat × Nat) : Ptr :=
  (m.stages ((m.fuzz_ones fuzz_one).stages slot.1)).mutators slot.2

/-- The order "stage first, then mutator" on the pairs (i, j). -/
def stage_then_mutator (a b : Nat × Nat) : Prop :=
  a.1 < b.1 ∨ (a.1 = b.1 ∧ a.2 < b.2)

/-! ## Reachable queue states and the links between entries -/

/-- The base queue states that the queue operations produce, starting from
`afl_base_queue_init`. -/
inductive base_queue_reachable (m : Mem) : base_queue_t → Prop where
  | init (q0 : base_queue_t) (calloc_result : Option Ptr) (shmem : Option (Nat → Option Ptr)) :
    base_queue_reachable m (afl_base_queue_init q0 calloc_result shmem).2
  | add (q q1 : base_queue_t) (entry : Ptr) (evs : List Event) :
    base_queue_reachable m q → afl_add_to_queue_default m q entry = some (q1, evs) →
    base_queue_reachable m q1
  | get_next (q q1 : base_queue_t) (engine_id : Int) (r : Option Ptr) :
    base_queue_reachable m q → afl_get_next_base_queue_default q engine_id = some (r, q1) →
    base_queue_reachable m q1
  | set_directory (q : base_queue_t) (path : Option String) :
    base_queue_reachable m q → base_queue_reachable m (afl_set_directory_default q path)
  | set_engine (q : base_queue_t) (engine : Option Ptr) :
    base_queue_reachable m q →
    base_queue_reachable m (afl_set_engine_base_queue_default m q engine)

/-- The entry reached from `start` by following `next` k times (NULL when the
chain ends before). -/
def follow_next (m : Mem) : Option Ptr → Nat → Option Ptr
  | start, 0 => start
  | none, _ + 1 => none
  | some p, k + 1 => follow_next m (m.entries p).next k

/-- The cursor predicate of the base queue: size > 0 implies current < size. -/
def cursor_in_range (q : base_queue_t) : Prop :=
  0 < q.size → q.current < q.size

instance (q : base_queue_t) : Decidable (cursor_in_range q) := by
  unfold cursor_in_range
  infer_instance

/-! ## Binding the engine of a global queue -/

/-- The loop of `afl_set_engine_global_queue_default` (lines 442-448) over the
indices `is`: `set_engine` of the feedback queue in each slot is called. -/
def set_engine_feedback_queues (o : Outside) (global_queue : Ptr) (engine : Option Ptr) :
    Mem → List Nat → Option Mem
  | m, [] => some m
  | m, i :: is =>
    match (m.global_queues global_queue).feedback_queues i with
    | none => none
    | some feedback_queue =>
      match call_set_engine o m (m.feedback_queues feedback_queue).base engine with
      | none => none
      | some b =>
        set_engine_feedback_queues o global_queue engine
          (m.set_feedback_queue feedback_queue
            { (m.feedback_queues feedback_queue) with base := b }) is

/-- `afl_set_engine_global_queue_default`. -/
def afl_set_engine_global_queue_default (o : Outside) (m : Mem) (global_queue_base : Ptr)
    (engine : Option Ptr) : Option Mem :=
  let gq0 := m.global_queues global_queue_base
  let m1 := m.set_global_queue global_queue_base
    { gq0 with base := afl_set_engine_base_queue_default m gq0.base engine }
  let m2 :=
    match engine with
    | some e => m1.set_engine e { (m1.engines e) with global_queue := some global_queue_base }
    | none => m1
  set_engine_feedback_queues o global_queue_base engine m2
    (List.range (m2.global_queues global_queue_base).feedback_queues_num)

/-- A feedback queue after `afl_set_engine_base_queue_default` on its base. -/
def feedback_queue_with_engine (m : Mem) (engine : Option Ptr) (fq : feedback_queue_t) :
    feedback_queue_t :=
  { fq with base := afl_set_engine_base_queue_default m fq.base engine }

/-! ## Destroying a queue entry -/

/-- Write through a `queue_entry_t *`. -/
def Mem.set_entry (m : Mem) (p : Ptr) (v : queue_entry_t) : Mem :=
  { m with entries := Function.update m.entries p v }

/-- `afl_queue_entry_deinit`.  The recursion over the children is bounded by
`fuel`; one unit is enough for an entry without children.  The macro
`LIST_FOREACH_CLEAR` (list.h, not among the sources) is taken to visit the
children in list order and to leave the list empty.  `afl_input_delete` is
recorded as an event. -/
def afl_queue_entry_deinit : Nat → Mem → Ptr → Option (Mem × List Event)
  | 0, _, _ => none
  | fuel + 1, m, entry =>
    let m1 :=
      match (m.entries entry).next with
      | some n => m.set_entry n { (m.entries n) with prev := (m.entries entry).prev }
      | none => m
    let m2 :=
      match (m1.entries entry).prev with
      | some p => m1.set_entry p { (m1.entries p) with next := (m1.entries entry).next }
      | none => m1
    let m3 := m2.set_entry entry
      { (m2.entries entry) with
        next := none, prev := none, queue := none, parent := none, filename := none }
    let children_done : Option (Mem × List Event) :=
      if (m3.entries entry).children_num ≠ 0 then
        match
          (m3.entries entry).children.foldl
            (fun acc el =>
              match acc with
              | none => none
              | some (mi, evs) =>
                match afl_queue_entry_deinit fuel mi el with
                | none => none
                | some (mj, evs1) => some (mj, evs ++ evs1))
            (some (m3, [])) with
        | none => none
        | some (mk, evs) =>
          some (mk.set_entry entry { (mk.entries entry) with children := [] }, evs)
      else some (m3, [])
    match children_done with
    | none => none
    | some (m4, evs) =>
      some (m4.set_entry entry { (m4.entries entry) with input := none },
        evs ++ [Event.afl_input_delete (m4.entries entry).input])

/-- A queue fresh from `afl_base_queue_init` and bound to the engine at
address 0 of the sample memory. -/
def fresh_queue : base_queue_t :=
  afl_set_engine_base_queue_default sample_mem
    (afl_base_queue_init raw_queue (some 0) (some fun _ => none)).2 (some 0)

/-- Line 52 of queue.c: `if (entry->next) { entry->next->prev = entry->prev; }`. -/
def deinit_unlink_next (m : Mem) (entry : Ptr) : Mem :=
  match (m.entries entry).next with
  | some n => m.set_entry n { (m.entries n) with prev := (m.entries entry).prev }
  | none => m

/-- Line 54 of queue.c: `if (entry->prev) { entry->prev->next = entry->next; }`. -/
def deinit_unlink_prev (m : Mem) (entry : Ptr) : Mem :=
  match (m.entries entry).prev with
  | some p => m.set_entry p { (m.entries p) with next := (m.entries entry).next }
  | none => m

/-- Lines 56-60 of queue.c: the links, the queue, the parent and the filename of
the entry are set to NULL. -/
def deinit_clear (m : Mem) (entry : Ptr) : Mem :=
  m.set_entry entry
    { (m.entries entry) with
      next := none, prev := none, queue := none, parent := none, filename := none }

/-- The entries after the entry at `e` has been taken out of its sibling list
and cleared: `e` has no links, queue, parent, filename or input left; in any
other entry, `prev` is the old `prev` of `e` if the entry was the `next` of `e`,
and `next` is the old `next` of `e` if the entry was the `prev` of `e`. -/
def unlinked_entries (m : Mem) (e : Ptr) : Ptr → queue_entry_t := fun a =>
  if a = e then
    { (m.entries e) with
      next := none, prev := none, queue := none, parent := none, filename := none,
      input := none }
  else
    { (m.entries a) with
      prev := if (m.entries e).next = some a then (m.entries e).prev else (m.entries a).prev,
      next := if (m.entries e).prev = some a then (m.entries e).next else (m.entries a).next }

/-- A sample memory with a sibling list: the entries at the addresses 1, 2, 3
are linked in this order; every other entry is unlinked. -/
def linked_mem : Mem :=
  { sample_mem with
    entries := fun p =>
      { input := some (100 + p), filename := some "f", queue := some 0,
        next := if p = 1 ∨ p = 2 then some (p + 1) else none,
        prev := if p = 2 ∨ p = 3 then some (p - 1) else none,
        parent := none, children := [], children_num := 0 } }

/-- The fresh queue after the entry at address 1 has been added. -/
def one_entry_queue : base_queue_t :=
  { fresh_queue with
    queue_entries := some (Function.update (fun _ => none) 0 (some 1)), size := 1 }

/-! ## Process control (src/src/libos.c)

The status that `waitpid` stores is read only through the macros of
`sys/wait.h`; it is modelled by the four kinds of status POSIX defines, and the
macros by functions on it.  The signal numbers are parameters. -/

/-- The result of `do_fork_default`. -/
inductive fork_result_t where
  | CHILD
  | PARENT
  | FORK_FAILED
deriving DecidableEq, Repr

/-- The exit classification `exit_type_t`. -/
inductive exit_type_t where
  | NORMAL
  | STOP
  | TIMEOUT
  | SEGV
  | ABRT
  | BUS
  | ILL
  | CRASH
deriving DecidableEq, Repr

/-- Code addresses stored in a `process_t`; `user k` is any other function. -/
inductive process_fn where
  | return_current_default
  | do_fork_default
  | resume_default
  | wait_default
  | suspend_default
  | user (k : Nat)
deriving DecidableEq, Repr

/-- The struct `process_t`: the pid of the handled process and the function
pointers that `_afl_process_init_` installs. -/
structure process_t where
  handler_process : Int
  current : process_fn
  fork : process_fn
  resume : process_fn
  wait : process_fn
  suspend : process_fn
deriving DecidableEq, Repr

/-- A wait status, as the macros of `sys/wait.h` tell its kinds apart. -/
inductive wait_status where
  | exited (code : Nat)
  | signaled (sig : Int)
  | stopped (sig : Int)
  | continued
deriving DecidableEq, Repr

/-- The macro `WIFEXITED`. -/
def WIFEXITED : wait_status → Bool
  | wait_status.exited _ => true
  | _ => false

/-- The macro `WIFSTOPPED`. -/
def WIFSTOPPED : wait_status → Bool
  | wait_status.stopped _ => true
  | _ => false

/-- The macro `WIFSIGNALED`. -/
def WIFSIGNALED : wait_status → Bool
  | wait_status.signaled _ => true
  | _ => false

/-- The macro `WTERMSIG`: the number of the terminating signal; it has a meaning
for a signaled status only. -/
def WTERMSIG : wait_status → Int
  | wait_status.signaled sig => sig
  | _ => 0

/-- The signal numbers of `signal.h` that `wait_default` names.  They label the
cases of one `switch`, so they are pairwise different. -/
structure signal_numbers where
  SIGKILL : Int
  SIGSEGV : Int
  SIGABRT : Int
  SIGBUS : Int
  SIGILL : Int
  distinct : [SIGKILL, SIGSEGV, SIGABRT, SIGBUS, SIGILL].Nodup

/-- How a call of `wait_default` ends: it returns an enumerator of
`exit_type_t`, it returns an integer converted to `exit_type_t` (`return -1`),
or the macro `FATAL` aborts the process. -/
inductive wait_outcome where
  | returns (e : exit_type_t)
  | returns_int (v : Int)
  | FATAL (msg : String)
deriving DecidableEq, Repr

/-- `_afl_process_init_`. -/
def _afl_process_init_ (process : process_t) : process_t :=
  { process with
    current := process_fn.return_current_default, fork := process_fn.do_fork_default,
    resume := process_fn.resume_default, wait := process_fn.wait_default,
    suspend := process_fn.suspend_default }

/-- `do_fork_default`; `child` is what the platform `fork()` returns. -/
def do_fork_default (process : process_t) (child : Int) : fork_result_t × process_t :=
  if child = 0 then (fork_result_t.CHILD, process)
  else if child < 0 then (fork_result_t.FORK_FAILED, process)
  else (fork_result_t.PARENT, { process with handler_process := child })

/-- `wait_default`.  `waitpid pid untraced` is the platform call
`waitpid(pid, &status, untraced ? WUNTRACED : 0)`: its return value and the
status it stored. -/
def wait_default (sn : signal_numbers) (waitpid : Int → Bool → Int × wait_status)
    (process : process_t) (untraced : Bool) : wait_outcome :=
  let r := waitpid process.handler_process untraced
  let status := r.2
  if r.1 < 0 then wait_outcome.returns_int (-1)
  else if WIFEXITED status then wait_outcome.returns exit_type_t.NORMAL
  else if WIFSTOPPED status then wait_outcome.returns exit_type_t.STOP
  else if WIFSIGNALED status then
    let signal_num := WTERMSIG status
    if signal_num = sn.SIGKILL then wait_outcome.returns exit_type_t.TIMEOUT
    else if signal_num = sn.SIGSEGV then wait_outcome.returns exit_type_t.SEGV
    else if signal_num = sn.SIGABRT then wait_outcome.returns exit_type_t.ABRT
    else if signal_num = sn.SIGBUS then wait_outcome.returns exit_type_t.BUS
    else if signal_num = sn.SIGILL then wait_outcome.returns exit_type_t.ILL
    else wait_outcome.returns exit_type_t.CRASH
  else wait_outcome.FATAL "Currently Unhandled"

/-- The signal numbers of Linux on x86. -/
def linux_signals : signal_numbers where
  SIGKILL := 9
  SIGSEGV := 11
  SIGABRT := 6
  SIGBUS := 7
  SIGILL := 4
  distinct := by decide

/-- A sample process object that handles the process with pid 4242. -/
def sample_process : process_t :=
  _afl_process_init_
    { handler_process := 4242, current := process_fn.user 0, fork := process_fn.user 0,
      resume := process_fn.user 0, wait := process_fn.user 0, suspend := process_fn.user 0 }

/-! ## Properties of the base queue -/

theorem get_next_matching (q : base_queue_t) (tbl : Nat → Option Ptr)
    (htbl : q.queue_entries = some tbl) (hS : q.size ≠ 0) :
    afl_get_next_base_queue_default q q.engine_id =
      some (tbl q.current,
        { q with current := if q.current + 1 = q.size then 0 else q.current + 1 }) := by
  unfold afl_get_next_base_queue_default
  simp only [hS, htbl, ne_eq, not_false_eq_true, if_true, not_true_eq_false, if_false]
  split <;> rfl

theorem get_next_foreign (q : base_queue_t) (tbl : Nat → Option Ptr) (engine_id : Int)
    (htbl : q.queue_entries = some tbl) (hS : q.size ≠ 0) (hid : engine_id ≠ q.engine_id) :
    afl_get_next_base_queue_default q engine_id = some (tbl q.current, q) := by
  unfold afl_get_next_base_queue_default
  simp only [hS, htbl, hid, ne_eq, not_false_eq_true, if_true]

theorem get_next_empty (q : base_queue_t) (engine_id : Int) (hS : q.size = 0) :
    afl_get_next_base_queue_default q engine_id = some (none, q) := by
  unfold afl_get_next_base_queue_default
  rw [if_neg (not_not.mpr hS)]

theorem get_next_calls_foreign (engine_id : Int) (tbl : Nat → Option Ptr) (q : base_queue_t)
    (htbl : q.queue_entries = some tbl) (hS : q.size ≠ 0) (hid : engine_id ≠ q.engine_id)
    (N : Nat) :
    get_next_calls q (List.replicate N engine_id) =
      some (List.replicate N (tbl q.current), q) := by
  induction N with
  | zero => rfl
  | succ n ih =>
    simp only [List.replicate_succ, get_next_calls, get_next_foreign q tbl engine_id htbl hS hid,
      ih]

theorem get_next_calls_foreign_then (engine_id : Int) (tbl : Nat → Option Ptr)
    (q : base_queue_t) (htbl : q.queue_entries = some tbl) (hS : q.size ≠ 0)
    (hid : engine_id ≠ q.engine_id) (ids : List Int) (N : Nat) :
    get_next_calls q (List.replicate N engine_id ++ ids) =
      match get_next_calls q ids with
      | none => none
      | some (rs, q2) => some (List.replicate N (tbl q.current) ++ rs, q2) := by
  induction N with
  | zero =>
    simp only [List.replicate_zero, List.nil_append]
    cases get_next_calls q ids <;> rfl
  | succ n ih =>
    rw [List.replicate_succ, List.cons_append, get_next_calls,
      get_next_foreign q tbl engine_id htbl hS hid]
    simp only [ih]
    cases get_next_calls q ids <;> rfl

theorem next_cursor_eq (c S : Nat) (h : c < S) :
    (if c + 1 = S then 0 else c + 1) = (c + 1) % S := by
  split
  · next h1 => rw [h1, Nat.mod_self]
  · next h1 => rw [Nat.mod_eq_of_lt (by omega)]

theorem get_next_calls_matching (tbl : Nat → Option Ptr) (N : Nat) :
    ∀ q : base_queue_t, q.queue_entries = some tbl → q.current < q.size →
      get_next_calls q (List.replicate N q.engine_id) =
        some ((List.range N).map (fun k => tbl ((q.current + k) % q.size)),
          { q with current := (q.current + N) % q.size }) := by
  induction N with
  | zero =>
    intro q _ hc
    simp only [List.replicate_zero, get_next_calls, List.range_zero, List.map_nil, Nat.add_zero,
      Nat.mod_eq_of_lt hc]
  | succ n ih =>
    intro q htbl hc
    have hS : q.size ≠ 0 := by omega
    rw [List.replicate_succ, get_next_calls, get_next_matching q tbl htbl hS]
    have h := ih { q with current := if q.current + 1 = q.size then 0 else q.current + 1 } htbl
      (by
        show (if q.current + 1 = q.size then 0 else q.current + 1) < q.size
        split <;> omega)
    simp only [next_cursor_eq q.current q.size hc] at h ⊢
    rw [h]
    have e2 : ∀ k, ((q.current + 1) % q.size + k) % q.size = (q.current + (k + 1)) % q.size := by
      intro k
      rw [Nat.mod_add_mod]
      congr 1
      omega
    simp only [e2, List.range_succ_eq_map, List.map_cons, List.map_map, Nat.add_zero,
      Nat.mod_eq_of_lt hc, Function.comp_def, Nat.succ_eq_add_one]

theorem add_non_null (m : Mem) (q : base_queue_t) (e engine : Ptr) (tbl : Nat → Option Ptr)
    (hin : (m.entries e).input ≠ none) (heng : q.engine = some engine)
    (htbl : q.queue_entries = some tbl) (hcap : q.size < m.map_slots) :
    afl_add_to_queue_default m q e =
      some ({ q with
              queue_entries := some (Function.update tbl q.size (some e)),
              size := q.size + 1 },
        (match (m.engines engine).fuzz_one with
          | some fuzz_one => fuzz_one_new_entry_hooks m fuzz_one e
          | none => []) ++ [add_broadcast m engine e]) := by
  cases q
  simp only at heng htbl hcap
  subst heng htbl
  simp only [afl_add_to_queue_default, hin, if_false, hcap, if_true, add_incr_size,
    add_store_entry]

/-- On a table without a free slot the store of line 207 is outside the table:
the call has no result. -/
theorem add_table_full (m : Mem) (q : base_queue_t) (e : Ptr)
    (hin : (m.entries e).input ≠ none) (hcap : ¬ q.size < m.map_slots) :
    afl_add_to_queue_default m q e = none := by
  unfold afl_add_to_queue_default
  rw [if_neg hin]
  rcases Option.eq_none_or_eq_some q.engine with heng | ⟨engine, heng⟩
  · rw [heng]
  · rcases Option.eq_none_or_eq_some q.queue_entries with htbl | ⟨tbl, htbl⟩
    · simp only [heng, htbl]
    · simp only [heng, htbl, if_neg hcap]

/-- A call with a non-null input that returns found the engine bound, the table
mapped and a free slot in the table. -/
theorem add_result_of_some (m : Mem) (q q1 : base_queue_t) (e : Ptr) (evs : List Event)
    (hin : (m.entries e).input ≠ none)
    (h : afl_add_to_queue_default m q e = some (q1, evs)) :
    ∃ engine tbl, q.engine = some engine ∧ q.queue_entries = some tbl ∧
      q.size < m.map_slots ∧
      q1 = { q with
             queue_entries := some (Function.update tbl q.size (some e)),
             size := q.size + 1 } := by
  have hcap : q.size < m.map_slots := by
    by_contra hcap
    rw [add_table_full m q e hin hcap] at h
    exact absurd h (by simp)
  rcases Option.eq_none_or_eq_some q.engine with heng | ⟨engine, heng⟩
  · unfold afl_add_to_queue_default at h
    rw [if_neg hin, heng] at h
    exact absurd h (by simp)
  · rcases Option.eq_none_or_eq_some q.queue_entries with htbl | ⟨tbl, htbl⟩
    · unfold afl_add_to_queue_default at h
      rw [if_neg hin, heng] at h
      simp only [htbl] at h
      exact absurd h (by simp)
    · rw [add_non_null m q e engine tbl hin heng htbl hcap] at h
      simp only [Option.some.injEq, Prod.mk.injEq] at h
      exact ⟨engine, tbl, heng, htbl, hcap, h.1.symm⟩

theorem add_all_non_null (m : Mem) (engine : Ptr) (es : List Ptr) :
    ∀ (q : base_queue_t) (tbl : Nat → Option Ptr), q.engine = some engine →
      q.queue_entries = some tbl → (∀ e ∈ es, (m.entries e).input ≠ none) →
      q.size + es.length ≤ m.map_slots →
      ∃ tbl1 evs,
        add_all m q es =
          some ({ q with queue_entries := some tbl1, size := q.size + es.length }, evs) ∧
        (∀ (i : Nat) (h : i < es.length), tbl1 (q.size + i) = some (es.get ⟨i, h⟩)) ∧
        ∀ j, j < q.size → tbl1 j = tbl j := by
  induction es with
  | nil =>
    intro q tbl _ htbl _ _
    refine ⟨tbl, [], ?_, ?_, ?_⟩
    · simp only [add_all, List.length_nil, Nat.add_zero, ← htbl]
    · intro i h
      exact absurd h (Nat.not_lt_zero i)
    · intro j _
      rfl
  | cons e es ih =>
    intro q tbl heng htbl hin hcap
    have hin1 : (m.entries e).input ≠ none := hin e (List.mem_cons_self e es)
    have hin2 : ∀ x ∈ es, (m.entries x).input ≠ none :=
      fun x hx => hin x (List.mem_cons_of_mem e hx)
    have hcap1 : q.size < m.map_slots := by
      simp only [List.length_cons] at hcap
      omega
    obtain ⟨tbl1, evs, h1, h2, h3⟩ :=
      ih { q with
           queue_entries := some (Function.update tbl q.size (some e)),
           size := q.size + 1 }
        (Function.update tbl q.size (some e)) heng rfl hin2
        (by
          simp only [List.length_cons] at hcap
          show q.size + 1 + es.length ≤ m.map_slots
          omega)
    simp only at h1 h2 h3
    refine ⟨tbl1,
      ((match (m.engines engine).fuzz_one with
          | some fuzz_one => fuzz_one_new_entry_hooks m fuzz_one e
          | none => []) ++ [add_broadcast m engine e]) ++ evs, ?_, ?_, ?_⟩
    · simp only [add_all, add_non_null m q e engine tbl hin1 heng htbl hcap1, h1,
        List.length_cons]
      congr 3
      omega
    · intro i h
      cases i with
      | zero =>
        have := h3 q.size (Nat.lt_succ_self q.size)
        simp only [Nat.add_zero, this, Function.update_same, List.get_eq_getElem,
          List.getElem_cons_zero]
      | succ i =>
        have := h2 i (Nat.lt_of_succ_lt_succ h)
        simp only [List.get_eq_getElem, List.getElem_cons_succ] at this ⊢
        rw [← this]
        congr 1
        show q.size + (i + 1) = q.size + 1 + i
        omega
    · intro j hj
      rw [h3 j (Nat.lt_succ_of_lt hj)]
      exact Function.update_noteq (Nat.ne_of_lt hj) _ _

/-- More entries than the table has free slots: the sequence of adds has no
result, because the add that finds the table full has none. -/
theorem add_all_past_capacity (m : Mem) (engine : Ptr) (es : List Ptr) :
    ∀ (q : base_queue_t) (tbl : Nat → Option Ptr), q.engine = some engine →
      q.queue_entries = some tbl → (∀ e ∈ es, (m.entries e).input ≠ none) →
      q.size ≤ m.map_slots → m.map_slots < q.size + es.length →
      add_all m q es = none := by
  induction es with
  | nil =>
    intro q tbl _ _ _ hle hcap
    simp only [List.length_nil, Nat.add_zero] at hcap
    omega
  | cons e es ih =>
    intro q tbl heng htbl hin _ hcap
    have hin1 : (m.entries e).input ≠ none := hin e (List.mem_cons_self e es)
    have hin2 : ∀ x ∈ es, (m.entries x).input ≠ none :=
      fun x hx => hin x (List.mem_cons_of_mem e hx)
    by_cases hfree : q.size < m.map_slots
    · have h1 := ih { q with
                      queue_entries := some (Function.update tbl q.size (some e)),
                      size := q.size + 1 }
        (Function.update tbl q.size (some e)) heng rfl hin2
        (show q.size + 1 ≤ m.map_slots from hfree)
        (by
          simp only [List.length_cons] at hcap
          show m.map_slots < q.size + 1 + es.length
          omega)
      simp only [add_all, add_non_null m q e engine tbl hin1 heng htbl hfree, h1]
    · simp only [add_all, add_table_full m q e hin1 hfree]

theorem round_robin_after_adds (m : Mem) (engine : Ptr) (es : List Ptr) (q : base_queue_t)
    (tbl : Nat → Option Ptr) (heng : q.engine = some engine) (htbl : q.queue_entries = some tbl)
    (hsz : q.size = 0) (hcur : q.current = 0) (hn : es ≠ [])
    (hin : ∀ e ∈ es, (m.entries e).input ≠ none) (hcap : es.length ≤ m.map_slots) :
    ∃ q1 evs,
      add_all m q es = some (q1, evs) ∧
      ∀ N : Nat, ∃ q2,
        get_next_calls q1 (List.replicate N q.engine_id) =
          some ((List.range N).map fun k =>
              some (es.get ⟨k % es.length, Nat.mod_lt k (List.length_pos.mpr hn)⟩), q2) := by
  obtain ⟨tbl1, evs, h1, h2, _⟩ :=
    add_all_non_null m engine es q tbl heng htbl hin (by omega)
  have hpos : 0 < es.length := List.length_pos.mpr hn
  refine ⟨_, evs, h1, ?_⟩
  intro N
  have h := get_next_calls_matching tbl1 N
    { q with queue_entries := some tbl1, size := q.size + es.length } rfl
    (show q.current < q.size + es.length by omega)
  refine ⟨{ q with
             queue_entries := some tbl1, size := q.size + es.length,
             current := (q.current + N) % (q.size + es.length) },
    h.trans (congrArg some (Prod.ext ?_ rfl))⟩
  apply List.map_congr_left
  intro k _
  show tbl1 ((q.current + k) % (q.size + es.length)) = _
  have h3 := h2 (k % es.length) (Nat.mod_lt k hpos)
  rw [hsz, Nat.zero_add] at h3
  rw [hcur, hsz, Nat.zero_add, Nat.zero_add]
  exact h3

/-- Round-robin order while the entries fit into the table: starting from a
freshly initialised base queue that is bound to an engine with id d, after the
entries e_0 .. e_(n-1) (1 <= n <= `map_slots`, all with a non-null input) were
added in that order, the k-th of any number of consecutive calls
`get_next_in_queue(d)` returns e_(k mod n). -/
theorem round_robin_in_insertion_order (m : Mem) (q0 : base_queue_t) (shared : Ptr)
    (tbl0 : Nat → Option Ptr) (engine : Ptr) (es : List Ptr) (hn : es ≠ [])
    (hin : ∀ e ∈ es, (m.entries e).input ≠ none) (hcap : es.length ≤ m.map_slots) :
    ∃ q evs,
      add_all m
          (afl_set_engine_base_queue_default m
            (afl_base_queue_init q0 (some shared) (some tbl0)).2 (some engine)) es =
        some (q, evs) ∧
      ∀ N : Nat, ∃ q1,
        get_next_calls q (List.replicate N (m.engines engine).id) =
          some ((List.range N).map fun k =>
              some (es.get ⟨k % es.length, Nat.mod_lt k (List.length_pos.mpr hn)⟩), q1) :=
  round_robin_after_adds m engine es
    (afl_set_engine_base_queue_default m
      (afl_base_queue_init q0 (some shared) (some tbl0)).2 (some engine))
    tbl0 rfl rfl rfl rfl hn hin hcap

/-- The entries at the addresses 1, 2, 3 are added to a fresh queue bound to the
engine at address 0 of the sample memory and served in rotation. -/
theorem scenario_round_robin_three_entries :
    ∃ q evs,
      add_all sample_mem
          (afl_set_engine_base_queue_default sample_mem
            (afl_base_queue_init raw_queue (some 0) (some fun _ => none)).2 (some 0))
          [1, 2, 3] = some (q, evs) ∧
      ∀ N : Nat, ∃ q1,
        get_next_calls q (List.replicate N (sample_mem.engines 0).id) =
          some ((List.range N).map fun k =>
              some (([1, 2, 3] : List Ptr).get
                ⟨k % ([1, 2, 3] : List Ptr).length,
                  Nat.mod_lt k (List.length_pos.mpr (by decide))⟩), q1) :=
  round_robin_in_insertion_order sample_mem raw_queue 0 (fun _ => none) 0 [1, 2, 3]
    (by decide) (by decide) (by decide)

/-- While the table has a free slot, `afl_add_to_queue_default` appends: for a
base queue with a bound engine, a mapped entry table and a size below
`map_slots`, and an entry whose input is non-null, the call returns, the size
afterwards is the old size plus 1, and the table slot at index (new size - 1)
holds the entry. -/
theorem add_appends_entry (m : Mem) (q : base_queue_t) (e engine : Ptr)
    (tbl : Nat → Option Ptr) (hin : (m.entries e).input ≠ none)
    (heng : q.engine = some engine) (htbl : q.queue_entries = some tbl)
    (hcap : q.size < m.map_slots) :
    ∃ q1 evs tbl1,
      afl_add_to_queue_default m q e = some (q1, evs) ∧
      afl_get_base_queue_size_default q1 = afl_get_base_queue_size_default q + 1 ∧
      q1.queue_entries = some tbl1 ∧ tbl1 (q1.size - 1) = some e := by
  refine ⟨_, _, _, add_non_null m q e engine tbl hin heng htbl hcap, rfl, rfl, ?_⟩
  show Function.update tbl q.size (some e) (q.size + 1 - 1) = some e
  rw [Nat.add_sub_cancel, Function.update_same]

/-- The entry at address 4 is added to the sample queue as fourth entry. -/
theorem scenario_add_fourth_entry :
    ∃ q1 evs tbl1,
      afl_add_to_queue_default sample_mem sample_queue 4 = some (q1, evs) ∧
      afl_get_base_queue_size_default q1 = afl_get_base_queue_size_default sample_queue + 1 ∧
      q1.queue_entries = some tbl1 ∧ tbl1 (q1.size - 1) = some 4 :=
  add_appends_entry sample_mem sample_queue 4 0 _ (by decide) rfl rfl (by decide)

/-- C3: for an entry whose input is null, `afl_add_to_queue_default` returns
the queue as it was (size, cursor, entry table and every other field), and the
only event of the call is one warning: no hook is called, nothing is sent. -/
theorem C3_add_null_input_is_noop (m : Mem) (q : base_queue_t) (e : Ptr)
    (hin : (m.entries e).input = none) :
    afl_add_to_queue_default m q e = some (q, [Event.WARNF "Queue entry with NULL input"]) := by
  unfold afl_add_to_queue_default
  rw [if_pos hin]

/-- C3 at the sample queue: the entry at address 0 has a null input. -/
theorem C3_add_null_input_is_noop_witness :
    (sample_mem.entries 0).input = none ∧
    afl_add_to_queue_default sample_mem sample_queue 0 =
      some (sample_queue, [Event.WARNF "Queue entry with NULL input"]) :=
  ⟨rfl, C3_add_null_input_is_noop sample_mem sample_queue 0 rfl⟩

/-- C4: on a base queue of size S > 0 (with a mapped entry table), (1) from
cursor 0, N consecutive calls of `get_next_in_queue` with the bound engine id
all return and leave the cursor at N mod S; (2) with current < size, one such
call sets the cursor to
(current + 1) mod size; (3) from size - 1 the cursor wraps to 0. -/
theorem C4_cursor_is_calls_mod_size (q : base_queue_t) (tbl : Nat → Option Ptr)
    (htbl : q.queue_entries = some tbl) (hS : 0 < q.size) :
    (q.current = 0 → ∀ N : Nat, ∃ rs,
      get_next_calls q (List.replicate N q.engine_id) =
        some (rs, { q with current := N % q.size })) ∧
    (q.current < q.size →
      afl_get_next_base_queue_default q q.engine_id =
        some (tbl q.current, { q with current := (q.current + 1) % q.size })) ∧
    (q.current + 1 = q.size →
      afl_get_next_base_queue_default q q.engine_id =
        some (tbl q.current, { q with current := 0 })) := by
  have hS0 : q.size ≠ 0 := Nat.pos_iff_ne_zero.mp hS
  refine ⟨?_, ?_, ?_⟩
  · intro hc N
    have h := get_next_calls_matching tbl N q htbl (by omega)
    rw [hc, Nat.zero_add] at h
    exact ⟨_, h⟩
  · intro hc
    rw [get_next_matching q tbl htbl hS0, next_cursor_eq q.current q.size hc]
  · intro hc
    rw [get_next_matching q tbl htbl hS0, if_pos hc]

/-- C4 at the sample queue (size 3, cursor 0). -/
theorem C4_cursor_is_calls_mod_size_witness :
    sample_queue.queue_entries = some (fun i => if i < 3 then some (i + 1) else none) ∧
    0 < sample_queue.size ∧ sample_queue.current = 0 ∧
    sample_queue.current < sample_queue.size ∧
    (∀ N : Nat, ∃ rs,
      get_next_calls sample_queue (List.replicate N sample_queue.engine_id) =
        some (rs, { sample_queue with current := N % sample_queue.size })) ∧
    afl_get_next_base_queue_default sample_queue sample_queue.engine_id =
      some (some 1,
        { sample_queue with current := (sample_queue.current + 1) % sample_queue.size }) :=
  ⟨rfl, by decide, rfl, by decide,
    (C4_cursor_is_calls_mod_size sample_queue _ rfl (by decide)).1 rfl,
    (C4_cursor_is_calls_mod_size sample_queue _ rfl (by decide)).2.1 (by decide)⟩

/-- C5: on a non-empty base queue (with a mapped entry table), N consecutive
calls of `get_next_in_queue` with an engine id that is not the bound one all
return the entry at the cursor and leave the queue as it was; a following call
with the bound engine id returns that same entry and moves the cursor on (to 0
from the last index). -/
theorem C5_foreign_engine_peeks (q : base_queue_t) (tbl : Nat → Option Ptr) (engine_id : Int)
    (N : Nat) (htbl : q.queue_entries = some tbl) (hS : q.size ≠ 0)
    (hid : engine_id ≠ q.engine_id) :
    get_next_calls q (List.replicate N engine_id) =
      some (List.replicate N (tbl q.current), q) ∧
    get_next_calls q (List.replicate N engine_id ++ [q.engine_id]) =
      some (List.replicate N (tbl q.current) ++ [tbl q.current],
        { q with current := if q.current + 1 = q.size then 0 else q.current + 1 }) := by
  refine ⟨get_next_calls_foreign engine_id tbl q htbl hS hid N, ?_⟩
  rw [get_next_calls_foreign_then engine_id tbl q htbl hS hid [q.engine_id] N]
  simp only [get_next_calls, get_next_matching q tbl htbl hS]

/-- C5 at the sample queue: engine id 99 peeks twice, then engine id 7 takes
the entry. -/
theorem C5_foreign_engine_peeks_witness :
    sample_queue.queue_entries = some (fun i => if i < 3 then some (i + 1) else none) ∧
    sample_queue.size ≠ 0 ∧ (99 : Int) ≠ sample_queue.engine_id ∧
    get_next_calls sample_queue (List.replicate 2 99) =
      some (List.replicate 2 (some 1), sample_queue) ∧
    get_next_calls sample_queue (List.replicate 2 99 ++ [sample_queue.engine_id]) =
      some (List.replicate 2 (some 1) ++ [some 1],
        { sample_queue with
          current := if sample_queue.current + 1 = sample_queue.size then 0
            else sample_queue.current + 1 }) :=
  ⟨rfl, by decide, by decide,
    C5_foreign_engine_peeks sample_queue _ 99 2 rfl (by decide) (by decide)⟩

/-- C6: on a base queue of size 0, `get_next_in_queue` returns NULL for every
engine id and leaves the queue, the cursor included, as it was. -/
theorem C6_get_next_on_empty_queue (q : base_queue_t) (engine_id : Int) (hS : q.size = 0) :
    afl_get_next_base_queue_default q engine_id = some (none, q) :=
  get_next_empty q engine_id hS

/-- C6 at a queue fresh from `afl_base_queue_init`. -/
theorem C6_get_next_on_empty_queue_witness :
    (afl_base_queue_init raw_queue (some 0) (some fun _ => none)).2.size = 0 ∧
    afl_get_next_base_queue_default
        (afl_base_queue_init raw_queue (some 0) (some fun _ => none)).2 7 =
      some (none, (afl_base_queue_init raw_queue (some 0) (some fun _ => none)).2) :=
  ⟨rfl, C6_get_next_on_empty_queue _ 7 rfl⟩

/-- C7: after `set_directory(p)`, `get_dirpath()` returns p when p is non-null
and the empty string when p is null, and `get_save_to_files()` is true exactly
when the stored path is not the empty string. -/
theorem C7_set_directory_then_get (q : base_queue_t) (p : Option String) :
    afl_get_dirpath_default (afl_set_directory_default q p) =
      some (match p with
        | some s => s
        | none => "") ∧
    (afl_get_save_to_files_default (afl_set_directory_default q p) = true ↔
      afl_get_dirpath_default (afl_set_directory_default q p) ≠ some "") := by
  cases p with
  | none => simp [afl_set_directory_default, afl_get_dirpath_default,
      afl_get_save_to_files_default]
  | some s =>
    by_cases hs : s = ""
    · simp [afl_set_directory_default, afl_get_dirpath_default,
        afl_get_save_to_files_default, hs]
    · simp [afl_set_directory_default, afl_get_dirpath_default,
        afl_get_save_to_files_default, hs]

theorem get_next_nonempty (q : base_queue_t) (tbl : Nat → Option Ptr) (engine_id : Int)
    (htbl : q.queue_entries = some tbl) (hS : q.size ≠ 0) :
    afl_get_next_base_queue_default q engine_id =
      some (tbl q.current,
        { q with
          current :=
            if engine_id ≠ q.engine_id then q.current
            else if q.current + 1 = q.size then 0 else q.current + 1 }) := by
  by_cases hid : engine_id = q.engine_id
  · subst hid
    rw [get_next_matching q tbl htbl hS]
    simp only [ne_eq, not_true_eq_false, if_false]
  · rw [get_next_foreign q tbl engine_id htbl hS hid]
    simp only [ne_eq, hid, not_false_eq_true, if_true]

theorem get_next_returns (q : base_queue_t) (tbl : Nat → Option Ptr) (engine_id : Int)
    (htbl : q.queue_entries = some tbl) :
    ∃ r b, afl_get_next_base_queue_default q engine_id = some (r, b) := by
  by_cases hS : q.size = 0
  · exact ⟨_, _, get_next_empty q engine_id hS⟩
  · exact ⟨_, _, get_next_nonempty q tbl engine_id htbl hS⟩

/-! ## The well-formed queue states are closed under the base queue operations -/

theorem well_formed_init (q : base_queue_t) (shared : Ptr) (tbl : Nat → Option Ptr) :
    queue_well_formed (afl_base_queue_init q (some shared) (some tbl)).2 :=
  ⟨tbl, rfl, ⟨fun _ => rfl, fun h => absurd rfl h⟩, fun i h => absurd h (Nat.not_lt_zero i)⟩

theorem well_formed_add (m : Mem) (q q1 : base_queue_t) (e : Ptr) (evs : List Event)
    (hwf : queue_well_formed q) (h : afl_add_to_queue_default m q e = some (q1, evs)) :
    queue_well_formed q1 := by
  obtain ⟨tbl, htbl, hcur, hslots⟩ := hwf
  by_cases hin : (m.entries e).input = none
  · unfold afl_add_to_queue_default at h
    rw [if_pos hin] at h
    simp only [Option.some.injEq, Prod.mk.injEq] at h
    rw [← h.1]
    exact ⟨tbl, htbl, hcur, hslots⟩
  · cases heng : q.engine with
    | none =>
      unfold afl_add_to_queue_default at h
      rw [if_neg hin, heng] at h
      exact absurd h (by simp)
    | some engine =>
      have hcap : q.size < m.map_slots := by
        by_contra hcap
        rw [add_table_full m q e hin hcap] at h
        exact absurd h (by simp)
      rw [add_non_null m q e engine tbl hin heng htbl hcap] at h
      simp only [Option.some.injEq, Prod.mk.injEq] at h
      rw [← h.1]
      refine ⟨_, rfl, ⟨?_, ?_⟩, ?_⟩
      · intro h0
        exact absurd h0 (Nat.succ_ne_zero q.size)
      · intro _
        show q.current < q.size + 1
        by_cases h0 : q.size = 0
        · have := hcur.1 h0
          omega
        · have := hcur.2 h0
          omega
      · intro i hi
        by_cases hi2 : i = q.size
        · rw [hi2, Function.update_same]
          exact Option.some_ne_none e
        · rw [Function.update_noteq hi2]
          exact hslots i (by
            have : i < q.size + 1 := hi
            omega)

theorem well_formed_get_next (q q1 : base_queue_t) (engine_id : Int) (r : Option Ptr)
    (hwf : queue_well_formed q)
    (h : afl_get_next_base_queue_default q engine_id = some (r, q1)) :
    queue_well_formed q1 := by
  obtain ⟨tbl, htbl, hcur, hslots⟩ := hwf
  by_cases hS : q.size = 0
  · rw [get_next_empty q engine_id hS] at h
    simp only [Option.some.injEq, Prod.mk.injEq] at h
    rw [← h.2]
    exact ⟨tbl, htbl, hcur, hslots⟩
  · rw [get_next_nonempty q tbl engine_id htbl hS] at h
    simp only [Option.some.injEq, Prod.mk.injEq] at h
    rw [← h.2]
    refine ⟨tbl, htbl, ⟨fun h0 => absurd h0 hS, ?_⟩, hslots⟩
    intro _
    show (if engine_id ≠ q.engine_id then q.current
      else if q.current + 1 = q.size then 0 else q.current + 1) < q.size
    have := hcur.2 hS
    split
    · exact this
    · split <;> omega

theorem well_formed_set_directory (q : base_queue_t) (p : Option String)
    (hwf : queue_well_formed q) : queue_well_formed (afl_set_directory_default q p) := by
  unfold afl_set_directory_default
  simp only
  split <;> exact hwf

theorem well_formed_set_engine (m : Mem) (q : base_queue_t) (engine : Option Ptr)
    (hwf : queue_well_formed q) :
    queue_well_formed (afl_set_engine_base_queue_default m q engine) := by
  cases engine <;> exact hwf

/-! ## The scenarios of the specification, evaluated -/

theorem scenario_enqueue_and_rotate :
    ∃ q evs q1,
      add_all sample_mem
          (afl_set_engine_base_queue_default sample_mem
            (afl_base_queue_init raw_queue (some 0) (some fun _ => none)).2 (some 0))
          [1, 2, 3] = some (q, evs) ∧
      get_next_calls q [7, 7, 7, 7] = some ([some 1, some 2, some 3, some 1], q1) ∧
      q1.current = 1 ∧ q1.size = 3 :=
  ⟨_, _, _, rfl, rfl, rfl, rfl⟩

theorem scenario_foreign_engine_peek :
    ∃ q evs q1,
      add_all sample_mem
          (afl_set_engine_base_queue_default sample_mem
            (afl_base_queue_init raw_queue (some 0) (some fun _ => none)).2 (some 0))
          [1, 2, 3] = some (q, evs) ∧
      get_next_calls q [99, 99, 7] = some ([some 1, some 1, some 1], q1) ∧
      q1.current = 1 :=
  ⟨_, _, _, rfl, rfl, rfl⟩

theorem scenario_global_fallback :
    (afl_get_next_global_queue_default (sample_outside (-1)) sample_mem 0 7).map Prod.fst =
      some (some 5) ∧
    (afl_get_next_global_queue_default (sample_outside 0) sample_mem 0 7).map Prod.fst =
      some (some 5) ∧
    (afl_get_next_global_queue_default (sample_outside 1) sample_mem 0 7).map Prod.fst =
      some (some 5) :=
  ⟨rfl, rfl, rfl⟩

/-! ## Properties of the global queue -/

theorem set_feedback_queue_self (m : Mem) (p : Ptr) :
    m.set_feedback_queue p (m.feedback_queues p) = m := by
  unfold Mem.set_feedback_queue
  rw [Function.update_eq_self]

theorem global_get_next_of_schedule_minus_one (o : Outside) (m m1 : Mem) (gq : Ptr)
    (engine_id : Int) (hs : call_schedule o m gq = some (-1, m1)) :
    afl_get_next_global_queue_default o m gq engine_id =
      global_base_get_next m1 gq engine_id := by
  unfold afl_get_next_global_queue_default
  rw [hs]
  simp only [ne_eq, not_true_eq_false, if_false]

theorem global_get_next_of_empty_feedback_queue (o : Outside) (m m1 : Mem) (gq fq : Ptr)
    (engine_id idx : Int) (hs : call_schedule o m gq = some (idx, m1)) (h0 : 0 ≤ idx)
    (hslot : (m1.global_queues gq).feedback_queues idx.toNat = some fq)
    (hempty : (m1.feedback_queues fq).base.size = 0)
    (hfn : (m1.feedback_queues fq).base.funcs.get_next_in_queue =
      fn_ptr.afl_get_next_base_queue_default) :
    afl_get_next_global_queue_default o m gq engine_id =
      global_base_get_next m1 gq engine_id := by
  have h1 : idx ≠ -1 := by omega
  have h2 : ¬ idx < 0 := by omega
  have h3 : call_get_next_in_queue o (m1.feedback_queues fq).base engine_id =
      some (none, (m1.feedback_queues fq).base) := by
    unfold call_get_next_in_queue
    rw [hfn]
    exact get_next_empty _ engine_id hempty
  unfold afl_get_next_global_queue_default
  rw [hs]
  simp only [ne_eq, h1, not_false_eq_true, if_true, h2, if_false, hslot, h3]
  rw [set_feedback_queue_self]

/-- C8: when the schedule hook of a global queue returns -1,
`afl_get_next_global_queue_default` is `afl_get_next_base_queue_default` on the
base queue of the global queue itself: same result, the base queue updated as by
that call, and no feedback queue written.  It returns whenever the entry table
of the base queue is mapped. -/
theorem C8_schedule_minus_one_is_base_rotation (o : Outside) (m m1 : Mem) (gq : Ptr)
    (engine_id : Int) (hs : call_schedule o m gq = some (-1, m1)) :
    afl_get_next_global_queue_default o m gq engine_id =
      (match afl_get_next_base_queue_default (m1.global_queues gq).base engine_id with
        | none => none
        | some (entry, b) =>
          some (entry, m1.set_global_queue gq { (m1.global_queues gq) with base := b })) ∧
    (∀ tbl, (m1.global_queues gq).base.queue_entries = some tbl →
      ∃ entry b m2,
        afl_get_next_base_queue_default (m1.global_queues gq).base engine_id =
          some (entry, b) ∧
        afl_get_next_global_queue_default o m gq engine_id = some (entry, m2) ∧
        (m2.global_queues gq).base = b ∧
        m2.feedback_queues = m1.feedback_queues) := by
  rw [global_get_next_of_schedule_minus_one o m m1 gq engine_id hs]
  refine ⟨rfl, ?_⟩
  intro tbl htbl
  obtain ⟨r, b, h⟩ := get_next_returns _ tbl engine_id htbl
  refine ⟨r, b, m1.set_global_queue gq { (m1.global_queues gq) with base := b }, h, ?_, ?_, ?_⟩
  · unfold global_base_get_next
    rw [h]
  · simp only [Mem.set_global_queue, Function.update_same]
  · rfl

/-- C8 at the sample memory, the schedule hook returning -1: the global queue
at address 0 hands out its own entry, the one at address 5. -/
theorem C8_schedule_minus_one_is_base_rotation_witness :
    call_schedule (sample_outside (-1)) sample_mem 0 = some (-1, sample_mem) ∧
    afl_get_next_global_queue_default (sample_outside (-1)) sample_mem 0 7 =
      (match afl_get_next_base_queue_default (sample_mem.global_queues 0).base 7 with
        | none => none
        | some (entry, b) =>
          some (entry,
            sample_mem.set_global_queue 0 { (sample_mem.global_queues 0) with base := b })) ∧
    afl_get_next_base_queue_default (sample_mem.global_queues 0).base 7 =
      some (some 5, { (sample_mem.global_queues 0).base with current := 0 }) :=
  ⟨rfl, (C8_schedule_minus_one_is_base_rotation (sample_outside (-1)) sample_mem sample_mem 0 7
    rfl).1, rfl⟩

/-- C9: when the schedule hook returns a valid index of a feedback queue that
is empty (and uses the default `get_next_in_queue`), the global
`get_next_in_queue` is base rotation on the base queue of the global queue
itself.  In particular, with two empty feedback queues and a base queue that
holds the single entry x, it returns x for each of the schedule results -1, 0
and 1. -/
theorem C9_empty_feedback_queue_is_base_rotation (o : Outside) (m m1 : Mem) (gq : Ptr)
    (engine_id idx : Int) (hs : call_schedule o m gq = some (idx, m1)) :
    (∀ fq, 0 ≤ idx → idx < ((m1.global_queues gq).feedback_queues_num : Int) →
      (m1.global_queues gq).feedback_queues idx.toNat = some fq →
      (m1.feedback_queues fq).base.size = 0 →
      (m1.feedback_queues fq).base.funcs.get_next_in_queue =
        fn_ptr.afl_get_next_base_queue_default →
      afl_get_next_global_queue_default o m gq engine_id =
        match afl_get_next_base_queue_default (m1.global_queues gq).base engine_id with
        | none => none
        | some (entry, b) =>
          some (entry, m1.set_global_queue gq { (m1.global_queues gq) with base := b })) ∧
    (∀ fq0 fq1 tbl x, (idx = -1 ∨ idx = 0 ∨ idx = 1) →
      (m1.global_queues gq).feedback_queues_num = 2 →
      (m1.global_queues gq).feedback_queues 0 = some fq0 →
      (m1.global_queues gq).feedback_queues 1 = some fq1 →
      (m1.feedback_queues fq0).base.size = 0 →
      (m1.feedback_queues fq0).base.funcs.get_next_in_queue =
        fn_ptr.afl_get_next_base_queue_default →
      (m1.feedback_queues fq1).base.size = 0 →
      (m1.feedback_queues fq1).base.funcs.get_next_in_queue =
        fn_ptr.afl_get_next_base_queue_default →
      (m1.global_queues gq).base.queue_entries = some tbl →
      (m1.global_queues gq).base.size = 1 →
      (m1.global_queues gq).base.current < (m1.global_queues gq).base.size →
      tbl 0 = some x →
      ∃ m2, afl_get_next_global_queue_default o m gq engine_id = some (some x, m2)) := by
  constructor
  · intro fq h0 _ hslot hempty hfn
    rw [global_get_next_of_empty_feedback_queue o m m1 gq fq engine_id idx hs h0 hslot hempty
      hfn]
    rfl
  · intro fq0 fq1 tbl x hidx _ hs0 hs1 he0 hf0 he1 hf1 htbl hsz hcur hx
    have hbase : afl_get_next_global_queue_default o m gq engine_id =
        global_base_get_next m1 gq engine_id := by
      rcases hidx with h | h | h
      · subst h
        exact global_get_next_of_schedule_minus_one o m m1 gq engine_id hs
      · subst h
        exact global_get_next_of_empty_feedback_queue o m m1 gq fq0 engine_id 0 hs
          (le_refl 0) hs0 he0 hf0
      · subst h
        exact global_get_next_of_empty_feedback_queue o m m1 gq fq1 engine_id 1 hs
          (by decide) hs1 he1 hf1
    have hc0 : (m1.global_queues gq).base.current = 0 := by omega
    have hne : (m1.global_queues gq).base.size ≠ 0 := by omega
    rw [hbase]
    unfold global_base_get_next
    rw [get_next_nonempty _ tbl engine_id htbl hne, hc0, hx]
    exact ⟨_, rfl⟩

/-- C9 at the sample memory, the schedule hook returning 1: both feedback
queues of the global queue at address 0 are empty, its base queue holds the
entry at address 5. -/
theorem C9_empty_feedback_queue_is_base_rotation_witness :
    call_schedule (sample_outside 1) sample_mem 0 = some (1, sample_mem) ∧
    (0 : Int) ≤ 1 ∧ (1 : Int) < ((sample_mem.global_queues 0).feedback_queues_num : Int) ∧
    (sample_mem.global_queues 0).feedback_queues (1 : Int).toNat = some 2 ∧
    (sample_mem.feedback_queues 2).base.size = 0 ∧
    (sample_mem.feedback_queues 2).base.funcs.get_next_in_queue =
      fn_ptr.afl_get_next_base_queue_default ∧
    (afl_get_next_global_queue_default (sample_outside 1) sample_mem 0 7 =
      match afl_get_next_base_queue_default (sample_mem.global_queues 0).base 7 with
      | none => none
      | some (entry, b) =>
        some (entry,
          sample_mem.set_global_queue 0 { (sample_mem.global_queues 0) with base := b })) ∧
    ∃ m2, afl_get_next_global_queue_default (sample_outside 1) sample_mem 0 7 =
      some (some 5, m2) :=
  ⟨rfl, by decide, by decide, rfl, rfl, rfl,
    (C9_empty_feedback_queue_is_base_rotation (sample_outside 1) sample_mem sample_mem 0 7 1
      rfl).1 2 (by decide) (by decide) rfl rfl rfl,
    (C9_empty_feedback_queue_is_base_rotation (sample_outside 1) sample_mem sample_mem 0 7 1
      rfl).2 1 2 (fun i => if i = 0 then some 5 else none) 5 (by decide) rfl rfl rfl rfl rfl
      rfl rfl rfl rfl (by decide) rfl⟩

/-- C10: when the schedule hook returns a valid index of a non-empty,
well-formed feedback queue F that uses the default `get_next_in_queue`, the
global `get_next_in_queue(engine_id)` returns the entry at the cursor of F,
leaves F as the direct call `afl_get_next_base_queue_default(F, engine_id)`
leaves it, and writes neither the global queue (its base cursor included) nor
any other feedback queue. -/
theorem C10_non_empty_feedback_queue_serves (o : Outside) (m m1 : Mem) (gq fq : Ptr)
    (engine_id idx : Int) (hs : call_schedule o m gq = some (idx, m1)) (h0 : 0 ≤ idx)
    (_hlt : idx < ((m1.global_queues gq).feedback_queues_num : Int))
    (hslot : (m1.global_queues gq).feedback_queues idx.toNat = some fq)
    (hfn : (m1.feedback_queues fq).base.funcs.get_next_in_queue =
      fn_ptr.afl_get_next_base_queue_default)
    (hne : (m1.feedback_queues fq).base.size ≠ 0)
    (hwf : queue_well_formed (m1.feedback_queues fq).base) :
    ∃ tbl e b m2,
      (m1.feedback_queues fq).base.queue_entries = some tbl ∧
      tbl (m1.feedback_queues fq).base.current = some e ∧
      afl_get_next_base_queue_default (m1.feedback_queues fq).base engine_id = some (some e, b) ∧
      b.current =
        (if engine_id ≠ (m1.feedback_queues fq).base.engine_id then
          (m1.feedback_queues fq).base.current
        else ((m1.feedback_queues fq).base.current + 1) % (m1.feedback_queues fq).base.size) ∧
      afl_get_next_global_queue_default o m gq engine_id = some (some e, m2) ∧
      m2.feedback_queues fq = { (m1.feedback_queues fq) with base := b } ∧
      m2.global_queues = m1.global_queues ∧
      (∀ p, p ≠ fq → m2.feedback_queues p = m1.feedback_queues p) ∧
      m2.entries = m1.entries ∧ m2.engines = m1.engines ∧ m2.feedbacks = m1.feedbacks := by
  obtain ⟨tbl, htbl, hcur, hslots⟩ := hwf
  have hsome : ∃ e, tbl (m1.feedback_queues fq).base.current = some e :=
    Option.ne_none_iff_exists'.mp (hslots _ (hcur.2 hne))
  obtain ⟨e, he⟩ := hsome
  have h1 : idx ≠ -1 := by omega
  have h2 : ¬ idx < 0 := by omega
  have h3 := get_next_nonempty (m1.feedback_queues fq).base tbl engine_id htbl hne
  rw [he] at h3
  obtain ⟨b, hb, hbc⟩ : ∃ b, afl_get_next_base_queue_default (m1.feedback_queues fq).base
      engine_id = some (some e, b) ∧
      b.current =
        (if engine_id ≠ (m1.feedback_queues fq).base.engine_id then
          (m1.feedback_queues fq).base.current
        else ((m1.feedback_queues fq).base.current + 1) % (m1.feedback_queues fq).base.size) := by
    refine ⟨_, h3, ?_⟩
    simp only [next_cursor_eq _ _ (hcur.2 hne)]
  have h4 : call_get_next_in_queue o (m1.feedback_queues fq).base engine_id =
      some (some e, b) := by
    unfold call_get_next_in_queue
    rw [hfn]
    exact hb
  refine ⟨tbl, e, b,
    m1.set_feedback_queue fq { (m1.feedback_queues fq) with base := b },
    htbl, he, hb, hbc, ?_, ?_, ?_, ?_, ?_, ?_, ?_⟩
  · unfold afl_get_next_global_queue_default
    rw [hs]
    simp only [ne_eq, h1, not_false_eq_true, if_true, h2, if_false, hslot, h4]
  · simp only [Mem.set_feedback_queue, Function.update_same]
  · rfl
  · intro p hp
    simp only [Mem.set_feedback_queue, Function.update_noteq hp]
  · rfl
  · rfl
  · rfl

/-- C10 at the sample memory, the schedule hook returning 0: slot 0 of the
global queue at address 1 is the feedback queue at address 3, which holds the
entries at the addresses 1, 2, 3 with the cursor on the first. -/
theorem C10_non_empty_feedback_queue_serves_witness :
    call_schedule (sample_outside 0) sample_mem 1 = some (0, sample_mem) ∧
    (sample_mem.global_queues 1).feedback_queues (0 : Int).toNat = some 3 ∧
    (sample_mem.feedback_queues 3).base.size ≠ 0 ∧
    queue_well_formed (sample_mem.feedback_queues 3).base ∧
    ∃ tbl e b m2,
      (sample_mem.feedback_queues 3).base.queue_entries = some tbl ∧
      tbl (sample_mem.feedback_queues 3).base.current = some e ∧
      afl_get_next_base_queue_default (sample_mem.feedback_queues 3).base 7 = some (some e, b) ∧
      b.current =
        (if (7 : Int) ≠ (sample_mem.feedback_queues 3).base.engine_id then
          (sample_mem.feedback_queues 3).base.current
        else ((sample_mem.feedback_queues 3).base.current + 1) %
          (sample_mem.feedback_queues 3).base.size) ∧
      afl_get_next_global_queue_default (sample_outside 0) sample_mem 1 7 = some (some e, m2) ∧
      m2.feedback_queues 3 = { (sample_mem.feedback_queues 3) with base := b } ∧
      m2.global_queues = sample_mem.global_queues ∧
      (∀ p, p ≠ 3 → m2.feedback_queues p = sample_mem.feedback_queues p) ∧
      m2.entries = sample_mem.entries ∧ m2.engines = sample_mem.engines ∧
      m2.feedbacks = sample_mem.feedbacks :=
  ⟨rfl, rfl, by decide, ⟨_, rfl, by decide, by decide⟩,
    C10_non_empty_feedback_queue_serves (sample_outside 0) sample_mem sample_mem 1 3 7 0 rfl
      (by decide) (by decide) rfl rfl (by decide) ⟨_, rfl, by decide, by decide⟩⟩

/-! ## Properties of process control -/

theorem signal_numbers_ne (sn : signal_numbers) :
    sn.SIGSEGV ≠ sn.SIGKILL ∧ sn.SIGABRT ≠ sn.SIGKILL ∧ sn.SIGABRT ≠ sn.SIGSEGV ∧
    sn.SIGBUS ≠ sn.SIGKILL ∧ sn.SIGBUS ≠ sn.SIGSEGV ∧ sn.SIGBUS ≠ sn.SIGABRT ∧
    sn.SIGILL ≠ sn.SIGKILL ∧ sn.SIGILL ≠ sn.SIGSEGV ∧ sn.SIGILL ≠ sn.SIGABRT ∧
    sn.SIGILL ≠ sn.SIGBUS := by
  have h := sn.distinct
  simp only [List.nodup_cons, List.mem_cons, List.mem_singleton, not_or, List.not_mem_nil,
    not_false_eq_true, List.nodup_nil, and_true] at h
  obtain ⟨⟨h1, h2, h3, h4⟩, ⟨h5, h6, h7⟩, ⟨h8, h9⟩, h10⟩ := h
  exact ⟨Ne.symm h1, Ne.symm h2, Ne.symm h5, Ne.symm h3, Ne.symm h6, Ne.symm h8, Ne.symm h4,
    Ne.symm h7, Ne.symm h9, Ne.symm h10⟩

theorem wait_default_of_status (sn : signal_numbers) (waitpid : Int → Bool → Int × wait_status)
    (p : process_t) (untraced : Bool) (h : ¬ (waitpid p.handler_process untraced).1 < 0) :
    wait_default sn waitpid p untraced =
      if WIFEXITED (waitpid p.handler_process untraced).2 then
        wait_outcome.returns exit_type_t.NORMAL
      else if WIFSTOPPED (waitpid p.handler_process untraced).2 then
        wait_outcome.returns exit_type_t.STOP
      else if WIFSIGNALED (waitpid p.handler_process untraced).2 then
        if WTERMSIG (waitpid p.handler_process untraced).2 = sn.SIGKILL then
          wait_outcome.returns exit_type_t.TIMEOUT
        else if WTERMSIG (waitpid p.handler_process untraced).2 = sn.SIGSEGV then
          wait_outcome.returns exit_type_t.SEGV
        else if WTERMSIG (waitpid p.handler_process untraced).2 = sn.SIGABRT then
          wait_outcome.returns exit_type_t.ABRT
        else if WTERMSIG (waitpid p.handler_process untraced).2 = sn.SIGBUS then
          wait_outcome.returns exit_type_t.BUS
        else if WTERMSIG (waitpid p.handler_process untraced).2 = sn.SIGILL then
          wait_outcome.returns exit_type_t.ILL
        else wait_outcome.returns exit_type_t.CRASH
      else wait_outcome.FATAL "Currently Unhandled" := by
  unfold wait_default
  simp only [h, if_false]

/-- C11: when the platform wait succeeds, `wait_default` returns NORMAL for an
exited status, STOP for a stopped one, for a signaled one TIMEOUT, SEGV, ABRT,
BUS, ILL for SIGKILL, SIGSEGV, SIGABRT, SIGBUS, SIGILL and CRASH for every other
signal, and ends in FATAL for a status of none of the three kinds. -/
theorem C11_wait_classification (sn : signal_numbers)
    (waitpid : Int → Bool → Int × wait_status) (p : process_t) (untraced : Bool)
    (status : wait_status) (hret : ¬ (waitpid p.handler_process untraced).1 < 0)
    (hst : (waitpid p.handler_process untraced).2 = status) :
    (∀ code, status = wait_status.exited code →
      wait_default sn waitpid p untraced = wait_outcome.returns exit_type_t.NORMAL) ∧
    (∀ sig, status = wait_status.stopped sig →
      wait_default sn waitpid p untraced = wait_outcome.returns exit_type_t.STOP) ∧
    (status = wait_status.signaled sn.SIGKILL →
      wait_default sn waitpid p untraced = wait_outcome.returns exit_type_t.TIMEOUT) ∧
    (status = wait_status.signaled sn.SIGSEGV →
      wait_default sn waitpid p untraced = wait_outcome.returns exit_type_t.SEGV) ∧
    (status = wait_status.signaled sn.SIGABRT →
      wait_default sn waitpid p untraced = wait_outcome.returns exit_type_t.ABRT) ∧
    (status = wait_status.signaled sn.SIGBUS →
      wait_default sn waitpid p untraced = wait_outcome.returns exit_type_t.BUS) ∧
    (status = wait_status.signaled sn.SIGILL →
      wait_default sn waitpid p untraced = wait_outcome.returns exit_type_t.ILL) ∧
    (∀ sig, sig ∉ [sn.SIGKILL, sn.SIGSEGV, sn.SIGABRT, sn.SIGBUS, sn.SIGILL] →
      status = wait_status.signaled sig →
      wait_default sn waitpid p untraced = wait_outcome.returns exit_type_t.CRASH) ∧
    (WIFEXITED status = false → WIFSTOPPED status = false → WIFSIGNALED status = false →
      wait_default sn waitpid p untraced = wait_outcome.FATAL "Currently Unhandled") := by
  obtain ⟨n1, n2, n3, n4, n5, n6, n7, n8, n9, n10⟩ := signal_numbers_ne sn
  rw [wait_default_of_status sn waitpid p untraced hret, hst]
  refine ⟨?_, ?_, ?_, ?_, ?_, ?_, ?_, ?_, ?_⟩
  · intro code h
    subst h
    rfl
  · intro sig h
    subst h
    rfl
  · intro h
    subst h
    simp [WIFEXITED, WIFSTOPPED, WIFSIGNALED, WTERMSIG]
  · intro h
    subst h
    simp [WIFEXITED, WIFSTOPPED, WIFSIGNALED, WTERMSIG, n1]
  · intro h
    subst h
    simp [WIFEXITED, WIFSTOPPED, WIFSIGNALED, WTERMSIG, n2, n3]
  · intro h
    subst h
    simp [WIFEXITED, WIFSTOPPED, WIFSIGNALED, WTERMSIG, n4, n5, n6]
  · intro h
    subst h
    simp [WIFEXITED, WIFSTOPPED, WIFSIGNALED, WTERMSIG, n7, n8, n9, n10]
  · intro sig hsig h
    subst h
    simp only [List.mem_cons, List.mem_singleton, not_or, List.not_mem_nil, or_false] at hsig
    simp [WIFEXITED, WIFSTOPPED, WIFSIGNALED, WTERMSIG, hsig.1, hsig.2.1, hsig.2.2.1,
      hsig.2.2.2.1, hsig.2.2.2.2]
  · intro h1 h2 h3
    simp [h1, h2, h3]

/-- C11 on Linux: the handled child was terminated by SIGSEGV (signal 11). -/
theorem C11_wait_classification_witness :
    ¬ ((fun (_ : Int) (_ : Bool) => ((4242 : Int), wait_status.signaled 11))
        sample_process.handler_process false).1 < 0 ∧
    wait_default linux_signals (fun _ _ => (4242, wait_status.signaled 11)) sample_process
        false = wait_outcome.returns exit_type_t.SEGV :=
  ⟨by decide,
    (C11_wait_classification linux_signals (fun _ _ => (4242, wait_status.signaled 11))
      sample_process false (wait_status.signaled 11) (by decide) rfl).2.2.2.1 rfl⟩

theorem scenario_wait_classification :
    wait_default linux_signals (fun _ _ => (4242, wait_status.signaled 11)) sample_process
      false = wait_outcome.returns exit_type_t.SEGV ∧
    wait_default linux_signals (fun _ _ => (4242, wait_status.signaled 9)) sample_process
      false = wait_outcome.returns exit_type_t.TIMEOUT ∧
    wait_default linux_signals (fun _ _ => (4242, wait_status.exited 0)) sample_process
      false = wait_outcome.returns exit_type_t.NORMAL ∧
    wait_default linux_signals (fun _ _ => (4242, wait_status.stopped 19)) sample_process
      true = wait_outcome.returns exit_type_t.STOP ∧
    wait_default linux_signals (fun _ _ => (4242, wait_status.signaled 8)) sample_process
      false = wait_outcome.returns exit_type_t.CRASH ∧
    wait_default linux_signals (fun _ _ => (4242, wait_status.continued)) sample_process
      false = wait_outcome.FATAL "Currently Unhandled" := by
  decide

/-- C12, amended: when the platform wait on `handler_process` fails (returns a
negative value), `wait_default` returns -1, converted to `exit_type_t`, to its
caller, for every process and every value of `untraced`; it does not abort. -/
theorem C12_wait_failure_returns_minus_one (sn : signal_numbers)
    (waitpid : Int → Bool → Int × wait_status) (p : process_t) (untraced : Bool)
    (hret : (waitpid p.handler_process untraced).1 < 0) :
    wait_default sn waitpid p untraced = wait_outcome.returns_int (-1) ∧
    ∀ msg, wait_default sn waitpid p untraced ≠ wait_outcome.FATAL msg := by
  have h : wait_default sn waitpid p untraced = wait_outcome.returns_int (-1) := by
    unfold wait_default
    simp only [hret, if_true]
  rw [h]
  exact ⟨rfl, fun msg hm => wait_outcome.noConfusion hm⟩

/-- C12, amended, on Linux: `waitpid` returns -1 and leaves the status at its
initial value 0. -/
theorem C12_wait_failure_returns_minus_one_witness :
    ((fun (_ : Int) (_ : Bool) => ((-1 : Int), wait_status.exited 0))
        sample_process.handler_process true).1 < 0 ∧
    wait_default linux_signals (fun _ _ => (-1, wait_status.exited 0)) sample_process true =
      wait_outcome.returns_int (-1) ∧
    ∀ msg, wait_default linux_signals (fun _ _ => (-1, wait_status.exited 0)) sample_process
      true ≠ wait_outcome.FATAL msg :=
  ⟨by decide,
    C12_wait_failure_returns_minus_one linux_signals (fun _ _ => (-1, wait_status.exited 0))
      sample_process true (by decide)⟩

/-- C12 as stated fails: with a failing platform wait, `wait_default` does not
end in FATAL; the call returns -1. -/
theorem C12_wait_failure_is_fatal_counterexample :
    ((fun (_ : Int) (_ : Bool) => ((-1 : Int), wait_status.exited 0))
        sample_process.handler_process false).1 < 0 ∧
    wait_default linux_signals (fun _ _ => (-1, wait_status.exited 0)) sample_process false =
      wait_outcome.returns_int (-1) ∧
    ¬ ∃ msg, wait_default linux_signals (fun _ _ => (-1, wait_status.exited 0)) sample_process
      false = wait_outcome.FATAL msg := by
  refine ⟨by decide, by decide, ?_⟩
  rintro ⟨msg, h⟩
  have h1 : wait_default linux_signals (fun _ _ => (-1, wait_status.exited 0)) sample_process
      false = wait_outcome.returns_int (-1) := by decide
  rw [h1] at h
  exact wait_outcome.noConfusion h

/-- C13: with c the value the platform fork returns, `do_fork_default` returns
CHILD and the process object as it was when c = 0, FORK_FAILED and the process
object as it was when c < 0, and PARENT with `handler_process` set to c (nothing
else written) when c > 0. -/
theorem C13_fork_result_and_frame (p : process_t) (c : Int) :
    (c = 0 → do_fork_default p c = (fork_result_t.CHILD, p)) ∧
    (c < 0 → do_fork_default p c = (fork_result_t.FORK_FAILED, p)) ∧
    (0 < c →
      do_fork_default p c = (fork_result_t.PARENT, { p with handler_process := c }) ∧
      (do_fork_default p c).2.handler_process = c) := by
  refine ⟨?_, ?_, ?_⟩
  · intro h
    simp only [do_fork_default, h, if_true]
  · intro h
    have h0 : c ≠ 0 := by omega
    simp only [do_fork_default, h0, h, if_true, if_false]
  · intro h
    have h0 : c ≠ 0 := by omega
    have h1 : ¬ c < 0 := by omega
    simp only [do_fork_default, h0, h1, if_false, and_self]

/-- C13 at the sample process for the fork results 0, -1 and 777. -/
theorem C13_fork_result_and_frame_witness :
    do_fork_default sample_process 0 = (fork_result_t.CHILD, sample_process) ∧
    do_fork_default sample_process (-1) = (fork_result_t.FORK_FAILED, sample_process) ∧
    do_fork_default sample_process 777 =
      (fork_result_t.PARENT, { sample_process with handler_process := 777 }) :=
  ⟨(C13_fork_result_and_frame sample_process 0).1 rfl,
    (C13_fork_result_and_frame sample_process (-1)).2.1 (by decide),
    ((C13_fork_result_and_frame sample_process 777).2.2 (by decide)).1⟩

/-! ## The order of the effects of `add` -/

theorem run_steps_calls (q : base_queue_t) (evs : List Event) :
    run_steps q (evs.map add_step.call) = q := by
  induction evs with
  | nil => rfl
  | cons ev evs ih =>
    simp only [run_steps, List.map_cons, List.foldl_cons, add_step.apply] at ih ⊢
    exact ih

theorem run_steps_append (q : base_queue_t) (a b : List add_step) :
    run_steps q (a ++ b) = run_steps (run_steps q a) b := by
  simp only [run_steps, List.foldl_append]

theorem filterMap_event_calls (evs : List Event) :
    (evs.map add_step.call).filterMap add_step.event = evs := by
  induction evs with
  | nil => rfl
  | cons ev evs ih =>
    simp only [List.map_cons, List.filterMap_cons, add_step.event, ih]

theorem add_steps_hooks_first (m : Mem) (q : base_queue_t) (e engine : Ptr)
    (hin : (m.entries e).input ≠ none) (heng : q.engine = some engine) :
    afl_add_to_queue_default_steps m q e =
      (match (m.engines engine).fuzz_one with
        | some fuzz_one => fuzz_one_new_entry_hooks m fuzz_one e
        | none => []).map add_step.call ++ add_store_send_incr m q engine e := by
  unfold afl_add_to_queue_default_steps
  simp only [hin, heng, if_false]

theorem add_steps_non_null (m : Mem) (q : base_queue_t) (e engine : Ptr)
    (tbl : Nat → Option Ptr) (hin : (m.entries e).input ≠ none)
    (heng : q.engine = some engine) (htbl : q.queue_entries = some tbl)
    (hcap : q.size < m.map_slots) :
    afl_add_to_queue_default_steps m q e =
      (match (m.engines engine).fuzz_one with
        | some fuzz_one => fuzz_one_new_entry_hooks m fuzz_one e
        | none => []).map add_step.call ++
        [add_step.store_entry q.size e, add_step.call (add_broadcast m engine e),
          add_step.incr_size] := by
  rw [add_steps_hooks_first m q e engine hin heng]
  simp only [add_store_send_incr, htbl, if_pos hcap]

/-- On a table without a free slot the effects of the call are the hook calls,
then the fault of the store outside the table. -/
theorem add_steps_table_full (m : Mem) (q : base_queue_t) (e engine : Ptr)
    (hin : (m.entries e).input ≠ none) (heng : q.engine = some engine)
    (hcap : ¬ q.size < m.map_slots) :
    afl_add_to_queue_default_steps m q e =
      (match (m.engines engine).fuzz_one with
        | some fuzz_one => fuzz_one_new_entry_hooks m fuzz_one e
        | none => []).map add_step.call ++ [add_step.fault] := by
  rw [add_steps_hooks_first m q e engine hin heng]
  rcases Option.eq_none_or_eq_some q.queue_entries with htbl | ⟨tbl, htbl⟩
  · simp only [add_store_send_incr, htbl]
  · simp only [add_store_send_incr, htbl, if_neg hcap]

theorem run_steps_store (q : base_queue_t) (tbl : Nat → Option Ptr) (evs : List Event)
    (e : Ptr) (htbl : q.queue_entries = some tbl) :
    run_steps q (evs.map add_step.call ++ [add_step.store_entry q.size e]) =
      { q with queue_entries := some (Function.update tbl q.size (some e)) } := by
  rw [run_steps_append, run_steps_calls]
  simp only [run_steps, List.foldl_cons, List.foldl_nil, add_step.apply, htbl]

theorem fault_not_mem_calls (evs : List Event) :
    add_step.fault ∉ evs.map add_step.call := by
  simp

/-- The sequence of effects and `afl_add_to_queue_default` describe the same
call: the call has no result exactly when its effects end in a fault;
otherwise the effects, run on the queue, give the queue the function returns,
and the calls among them are the events it returns. -/
theorem add_steps_sound (m : Mem) (q : base_queue_t) (e : Ptr) :
    afl_add_to_queue_default m q e =
      if add_step.fault ∈ afl_add_to_queue_default_steps m q e then none
      else
        some (run_steps q (afl_add_to_queue_default_steps m q e),
          (afl_add_to_queue_default_steps m q e).filterMap add_step.event) := by
  by_cases hin : (m.entries e).input = none
  · have hs : afl_add_to_queue_default_steps m q e =
        [add_step.call (Event.WARNF "Queue entry with NULL input")] := by
      simp only [afl_add_to_queue_default_steps, hin, if_true]
    rw [hs, if_neg (by simp)]
    simp only [afl_add_to_queue_default, hin, if_true, run_steps, List.foldl_cons,
      List.foldl_nil, add_step.apply, List.filterMap_cons, add_step.event, List.filterMap_nil]
  · rcases Option.eq_none_or_eq_some q.engine with heng | ⟨engine, heng⟩
    · have hs : afl_add_to_queue_default_steps m q e = [add_step.fault] := by
        simp only [afl_add_to_queue_default_steps, hin, if_false, heng]
      rw [hs, if_pos (List.mem_singleton.mpr rfl)]
      simp only [afl_add_to_queue_default, hin, if_false, heng]
    · rcases Option.eq_none_or_eq_some q.queue_entries with htbl | ⟨tbl, htbl⟩
      · have hs : afl_add_to_queue_default_steps m q e =
            (match (m.engines engine).fuzz_one with
              | some fuzz_one => fuzz_one_new_entry_hooks m fuzz_one e
              | none => []).map add_step.call ++ [add_step.fault] := by
          rw [add_steps_hooks_first m q e engine hin heng]
          simp only [add_store_send_incr, htbl]
        rw [hs, if_pos (List.mem_append_right _ (List.mem_singleton.mpr rfl))]
        simp only [afl_add_to_queue_default, hin, if_false, heng, htbl]
      · by_cases hcap : q.size < m.map_slots
        · rw [add_non_null m q e engine tbl hin heng htbl hcap,
            add_steps_non_null m q e engine tbl hin heng htbl hcap]
          have hnf : add_step.fault ∉
              (match (m.engines engine).fuzz_one with
                | some fuzz_one => fuzz_one_new_entry_hooks m fuzz_one e
                | none => []).map add_step.call ++
                [add_step.store_entry q.size e, add_step.call (add_broadcast m engine e),
                  add_step.incr_size] := by
            intro hmem
            rcases List.mem_append.mp hmem with h1 | h1
            · exact fault_not_mem_calls _ h1
            · simp at h1
          rw [if_neg hnf]
          simp only [Option.some.injEq, Prod.mk.injEq]
          constructor
          · have h := run_steps_store q tbl
              (match (m.engines engine).fuzz_one with
                | some fuzz_one => fuzz_one_new_entry_hooks m fuzz_one e
                | none => []) e htbl
            have happ : ∀ (l : List add_step) (a b c : add_step),
                l ++ [a, b, c] = (l ++ [a]) ++ [b, c] := by
              intro l a b c
              simp only [List.append_assoc, List.singleton_append]
            rw [happ, run_steps_append, h]
            rfl
          · simp only [List.filterMap_append, filterMap_event_calls, List.filterMap_cons,
              add_step.event, List.filterMap_nil]
        · rw [add_table_full m q e hin hcap, add_steps_table_full m q e engine hin heng hcap,
            if_pos (List.mem_append_right _ (List.mem_singleton.mpr rfl))]

theorem hooks_are_not_sends (m : Mem) (engine e : Ptr) :
    ∀ ev ∈ (match (m.engines engine).fuzz_one with
        | some fuzz_one => fuzz_one_new_entry_hooks m fuzz_one e
        | none => []),
      ∀ client msg, ev ≠ Event.llmp_client_send client msg := by
  intro ev hev client msg
  cases hf : (m.engines engine).fuzz_one with
  | none =>
    rw [hf] at hev
    exact absurd hev (List.not_mem_nil ev)
  | some f =>
    rw [hf] at hev
    simp only [fuzz_one_new_entry_hooks, stage_new_entry_hooks, List.mem_flatten,
      List.mem_map, List.mem_range, List.mem_filterMap] at hev
    obtain ⟨l, ⟨i, _, hl⟩, hmem⟩ := hev
    rw [← hl] at hmem
    simp only [List.mem_filterMap, List.mem_range] at hmem
    obtain ⟨j, _, hj⟩ := hmem
    intro heq
    rw [heq] at hj
    split at hj
    · simp only [Option.some.injEq] at hj
      exact Event.noConfusion hj
    · exact Option.noConfusion hj

/-- C14, amended: in an execution of add with a non-null input on a queue with
a bound engine and a mapped table that has a free slot (`size` below
`map_slots`), the effects are, in this order, the hook calls, the write of the
entry to table slot `size`, the send of the NEW_QUEUE_ENTRY message, and the
increment of `size`.  At the moment of the send the entry is stored in the entry
table at index i = size, the counter not yet incremented; after the call it is
stored at index size - 1. -/
theorem C14_entry_stored_at_size_when_sent (m : Mem) (q : base_queue_t) (e engine : Ptr)
    (tbl : Nat → Option Ptr) (hin : (m.entries e).input ≠ none)
    (heng : q.engine = some engine) (htbl : q.queue_entries = some tbl)
    (hcap : q.size < m.map_slots) :
    ∃ hooks : List Event,
      (∀ ev ∈ hooks, ∀ client msg, ev ≠ Event.llmp_client_send client msg) ∧
      add_broadcast m engine e =
        Event.llmp_client_send (m.engines engine).llmp_client
          { tag := llmp_tag.LLMP_TAG_NEW_QUEUE_ENTRY, buf := m.entries e } ∧
      afl_add_to_queue_default_steps m q e =
        (hooks.map add_step.call ++ [add_step.store_entry q.size e]) ++
          [add_step.call (add_broadcast m engine e), add_step.incr_size] ∧
      (run_steps q (hooks.map add_step.call ++ [add_step.store_entry q.size e])).size =
        q.size ∧
      (run_steps q (hooks.map add_step.call ++ [add_step.store_entry q.size e])).queue_entries =
        some (Function.update tbl q.size (some e)) ∧
      Function.update tbl q.size (some e) q.size = some e ∧
      afl_add_to_queue_default m q e =
        some ({ q with
                queue_entries := some (Function.update tbl q.size (some e)),
                size := q.size + 1 },
          hooks ++ [add_broadcast m engine e]) := by
  refine ⟨match (m.engines engine).fuzz_one with
      | some fuzz_one => fuzz_one_new_entry_hooks m fuzz_one e
      | none => [], hooks_are_not_sends m engine e, rfl, ?_, ?_, ?_, ?_, ?_⟩
  · rw [add_steps_non_null m q e engine tbl hin heng htbl hcap]
    simp only [List.append_assoc, List.singleton_append]
  · rw [run_steps_store q tbl _ e htbl]
  · rw [run_steps_store q tbl _ e htbl]
  · exact Function.update_same _ _ _
  · exact add_non_null m q e engine tbl hin heng htbl hcap

/-- C14, amended, at the sample queue: the entry at address 4 is added to a
queue of three entries, whose table has 8192 slots. -/
theorem C14_entry_stored_at_size_when_sent_witness :
    (sample_mem.entries 4).input ≠ none ∧ sample_queue.engine = some 0 ∧
    sample_queue.size < sample_mem.map_slots ∧
    ∃ hooks : List Event,
      afl_add_to_queue_default_steps sample_mem sample_queue 4 =
        (hooks.map add_step.call ++ [add_step.store_entry sample_queue.size 4]) ++
          [add_step.call (add_broadcast sample_mem 0 4), add_step.incr_size] ∧
      (run_steps sample_queue
        (hooks.map add_step.call ++ [add_step.store_entry sample_queue.size 4])).size = 3 :=
  ⟨by decide, rfl, by decide,
    (C14_entry_stored_at_size_when_sent sample_mem sample_queue 4 0 _ (by decide) rfl rfl
      (by decide)).imp
      fun _ h => ⟨h.2.2.1, h.2.2.2.1⟩⟩

/-- C14 as stated fails: when the entry at address 4 is added to the sample
queue (three entries, a table of 8192 slots), then at the moment of the send,
that is after the effects that precede the send, the size is still 3 and no slot
below index 3 holds the entry. -/
theorem C14_entry_below_size_when_sent_counterexample :
    afl_add_to_queue_default_steps sample_mem sample_queue 4 =
      ((fuzz_one_new_entry_hooks sample_mem 0 4).map add_step.call ++
          [add_step.store_entry 3 4]) ++
        [add_step.call (add_broadcast sample_mem 0 4), add_step.incr_size] ∧
    (run_steps sample_queue
      ((fuzz_one_new_entry_hooks sample_mem 0 4).map add_step.call ++
        [add_step.store_entry 3 4])).size = 3 ∧
    ∃ tbl,
      (run_steps sample_queue
        ((fuzz_one_new_entry_hooks sample_mem 0 4).map add_step.call ++
          [add_step.store_entry 3 4])).queue_entries = some tbl ∧
      tbl 3 = some 4 ∧
      ¬ ∃ i, i < (run_steps sample_queue
          ((fuzz_one_new_entry_hooks sample_mem 0 4).map add_step.call ++
            [add_step.store_entry 3 4])).size ∧ tbl i = some 4 := by
  refine ⟨?_, rfl, _, rfl, rfl, ?_⟩
  · rw [add_steps_non_null sample_mem sample_queue 4 0 _ (by decide) rfl rfl (by decide)]
    rfl
  · rintro ⟨i, hi, h⟩
    have hi3 : i < 3 := hi
    have h3 : ∀ j, j < 3 →
        Function.update (fun i => if i < 3 then some (i + 1) else none) 3 (some 4) j ≠
          some 4 := by
      decide
    exact h3 i hi3 h

/-! ## What the queue operations keep of a queue -/

theorem add_keeps_fields (m : Mem) (q q1 : base_queue_t) (e : Ptr) (evs : List Event)
    (h : afl_add_to_queue_default m q e = some (q1, evs)) :
    q1.base = q.base ∧ q1.current = q.current ∧
    (q1.size = q.size ∨ q1.size = q.size + 1) := by
  by_cases hin : (m.entries e).input = none
  · unfold afl_add_to_queue_default at h
    rw [if_pos hin] at h
    simp only [Option.some.injEq, Prod.mk.injEq] at h
    rw [← h.1]
    exact ⟨rfl, rfl, Or.inl rfl⟩
  · cases heng : q.engine with
    | none =>
      unfold afl_add_to_queue_default at h
      rw [if_neg hin, heng] at h
      exact absurd h (by simp)
    | some engine =>
      cases htbl : q.queue_entries with
      | none =>
        unfold afl_add_to_queue_default at h
        rw [if_neg hin, heng] at h
        simp only [htbl] at h
        exact absurd h (by simp)
      | some tbl =>
        have hcap : q.size < m.map_slots := by
          by_contra hcap
          rw [add_table_full m q e hin hcap] at h
          exact absurd h (by simp)
        rw [add_non_null m q e engine tbl hin heng htbl hcap] at h
        simp only [Option.some.injEq, Prod.mk.injEq] at h
        rw [← h.1]
        exact ⟨rfl, rfl, Or.inr rfl⟩

theorem get_next_keeps_fields (q q1 : base_queue_t) (engine_id : Int) (r : Option Ptr)
    (h : afl_get_next_base_queue_default q engine_id = some (r, q1)) :
    q1.base = q.base ∧ q1.size = q.size ∧
    (q.size = 0 → q1.current = q.current) ∧
    (q.current < q.size → q1.current < q.size) := by
  by_cases hS : q.size = 0
  · rw [get_next_empty q engine_id hS] at h
    simp only [Option.some.injEq, Prod.mk.injEq] at h
    rw [← h.2]
    exact ⟨rfl, rfl, fun _ => rfl, fun hc => hc⟩
  · cases htbl : q.queue_entries with
    | none =>
      unfold afl_get_next_base_queue_default at h
      simp only [ne_eq, hS, not_false_eq_true, if_true, htbl] at h
      exact absurd h (by simp)
    | some tbl =>
      rw [get_next_nonempty q tbl engine_id htbl hS] at h
      simp only [Option.some.injEq, Prod.mk.injEq] at h
      rw [← h.2]
      refine ⟨rfl, rfl, fun h0 => absurd h0 hS, ?_⟩
      intro hc
      show (if engine_id ≠ q.engine_id then q.current
        else if q.current + 1 = q.size then 0 else q.current + 1) < q.size
      split
      · exact hc
      · split <;> omega

theorem set_directory_keeps_fields (q : base_queue_t) (p : Option String) :
    (afl_set_directory_default q p).base = q.base ∧
    (afl_set_directory_default q p).size = q.size ∧
    (afl_set_directory_default q p).current = q.current := by
  unfold afl_set_directory_default
  simp only
  split <;> exact ⟨rfl, rfl, rfl⟩

theorem set_engine_keeps_fields (m : Mem) (q : base_queue_t) (engine : Option Ptr) :
    (afl_set_engine_base_queue_default m q engine).base = q.base ∧
    (afl_set_engine_base_queue_default m q engine).size = q.size ∧
    (afl_set_engine_base_queue_default m q engine).current = q.current := by
  cases engine <;> exact ⟨rfl, rfl, rfl⟩

theorem init_fields (q0 : base_queue_t) (c : Option Ptr) (s : Option (Nat → Option Ptr)) :
    (afl_base_queue_init q0 c s).2.base = none ∧ (afl_base_queue_init q0 c s).2.size = 0 ∧
    (afl_base_queue_init q0 c s).2.current = 0 := by
  cases c with
  | none => exact ⟨rfl, rfl, rfl⟩
  | some c => cases s <;> exact ⟨rfl, rfl, rfl⟩

/-- In every reachable queue state the head pointer `base` is NULL: no queue
operation writes it after `afl_base_queue_init`. -/
theorem reachable_base_null (m : Mem) (q : base_queue_t) (h : base_queue_reachable m q) :
    q.base = none := by
  induction h with
  | init q0 c s => exact (init_fields q0 c s).1
  | add q q1 e evs _ hadd ih => rw [(add_keeps_fields m q q1 e evs hadd).1, ih]
  | get_next q q1 id r _ hget ih => rw [(get_next_keeps_fields q q1 id r hget).1, ih]
  | set_directory q p _ ih => rw [(set_directory_keeps_fields q p).1, ih]
  | set_engine q e _ ih => rw [(set_engine_keeps_fields m q e).1, ih]

/-- In every reachable queue state the cursor is below the size, or both are
0. -/
theorem reachable_cursor (m : Mem) (q : base_queue_t) (h : base_queue_reachable m q) :
    (q.size = 0 → q.current = 0) ∧ (q.size ≠ 0 → q.current < q.size) := by
  induction h with
  | init q0 c s =>
    obtain ⟨_, h2, h3⟩ := init_fields q0 c s
    exact ⟨fun _ => h3, fun h => absurd h2 h⟩
  | add q q1 e evs _ hadd ih =>
    obtain ⟨_, h2, h3⟩ := add_keeps_fields m q q1 e evs hadd
    rw [h2]
    rcases h3 with h3 | h3
    · rw [h3]
      exact ih
    · rw [h3]
      refine ⟨fun h => absurd h (Nat.succ_ne_zero _), fun _ => ?_⟩
      by_cases h0 : q.size = 0
      · have := ih.1 h0
        omega
      · have := ih.2 h0
        omega
  | get_next q q1 id r _ hget ih =>
    obtain ⟨_, h2, h3, h4⟩ := get_next_keeps_fields q q1 id r hget
    rw [h2]
    refine ⟨fun h0 => ?_, fun h0 => h4 (ih.2 h0)⟩
    rw [h3 h0]
    exact ih.1 h0
  | set_directory q p _ ih =>
    obtain ⟨_, h2, h3⟩ := set_directory_keeps_fields q p
    rw [h2, h3]
    exact ih
  | set_engine q e _ ih =>
    obtain ⟨_, h2, h3⟩ := set_engine_keeps_fields m q e
    rw [h2, h3]
    exact ih

theorem fresh_queue_reachable : base_queue_reachable sample_mem fresh_queue :=
  base_queue_reachable.set_engine _ (some 0)
    (base_queue_reachable.init raw_queue (some 0) (some fun _ => none))

theorem one_entry_queue_added :
    afl_add_to_queue_default sample_mem fresh_queue 1 =
      some (one_entry_queue,
        fuzz_one_new_entry_hooks sample_mem 0 1 ++ [add_broadcast sample_mem 0 1]) :=
  rfl

theorem one_entry_queue_reachable : base_queue_reachable sample_mem one_entry_queue :=
  base_queue_reachable.add _ _ 1 _ fresh_queue_reachable one_entry_queue_added

theorem get_next_keeps_table (q q1 : base_queue_t) (engine_id : Int) (r : Option Ptr)
    (h : afl_get_next_base_queue_default q engine_id = some (r, q1)) :
    q1.queue_entries = q.queue_entries := by
  by_cases hS : q.size = 0
  · rw [get_next_empty q engine_id hS] at h
    simp only [Option.some.injEq, Prod.mk.injEq] at h
    rw [← h.2]
  · cases htbl : q.queue_entries with
    | none =>
      unfold afl_get_next_base_queue_default at h
      simp only [ne_eq, hS, not_false_eq_true, if_true, htbl] at h
      exact absurd h (by simp)
    | some tbl =>
      rw [get_next_nonempty q tbl engine_id htbl hS] at h
      simp only [Option.some.injEq, Prod.mk.injEq] at h
      rw [← h.2]
      exact htbl

theorem set_directory_keeps_table (q : base_queue_t) (p : Option String) :
    (afl_set_directory_default q p).queue_entries = q.queue_entries := by
  unfold afl_set_directory_default
  simp only
  split <;> rfl

theorem set_engine_keeps_table (m : Mem) (q : base_queue_t) (engine : Option Ptr) :
    (afl_set_engine_base_queue_default m q engine).queue_entries = q.queue_entries := by
  cases engine <;> rfl

/-- In every reachable queue state each table slot below the size holds an
entry. -/
theorem reachable_slots (m : Mem) (q : base_queue_t) (h : base_queue_reachable m q) :
    ∀ i, i < q.size → ∃ tbl e, q.queue_entries = some tbl ∧ tbl i = some e := by
  induction h with
  | init q0 c s =>
    intro i hi
    rw [(init_fields q0 c s).2.1] at hi
    exact absurd hi (Nat.not_lt_zero i)
  | add q q1 e evs _ hadd ih =>
    by_cases hin : (m.entries e).input = none
    · unfold afl_add_to_queue_default at hadd
      rw [if_pos hin] at hadd
      simp only [Option.some.injEq, Prod.mk.injEq] at hadd
      rw [← hadd.1]
      exact ih
    · cases heng : q.engine with
      | none =>
        unfold afl_add_to_queue_default at hadd
        rw [if_neg hin, heng] at hadd
        exact absurd hadd (by simp)
      | some engine =>
        cases htbl : q.queue_entries with
        | none =>
          unfold afl_add_to_queue_default at hadd
          rw [if_neg hin, heng] at hadd
          simp only [htbl] at hadd
          exact absurd hadd (by simp)
        | some tbl =>
          have hcap : q.size < m.map_slots := by
            by_contra hcap
            rw [add_table_full m q e hin hcap] at hadd
            exact absurd hadd (by simp)
          rw [add_non_null m q e engine tbl hin heng htbl hcap] at hadd
          simp only [Option.some.injEq, Prod.mk.injEq] at hadd
          rw [← hadd.1]
          intro i hi
          have hi2 : i < q.size + 1 := hi
          by_cases his : i = q.size
          · exact ⟨_, e, rfl, by rw [his, Function.update_same]⟩
          · obtain ⟨tbl1, e1, h1, h2⟩ := ih i (by omega)
            rw [htbl] at h1
            simp only [Option.some.injEq] at h1
            refine ⟨_, e1, rfl, ?_⟩
            rw [Function.update_noteq his, h1]
            exact h2
  | get_next q q1 id r _ hget ih =>
    intro i hi
    rw [(get_next_keeps_fields q q1 id r hget).2.1] at hi
    rw [get_next_keeps_table q q1 id r hget]
    exact ih i hi
  | set_directory q p _ ih =>
    intro i hi
    rw [(set_directory_keeps_fields q p).2.1] at hi
    rw [set_directory_keeps_table]
    exact ih i hi
  | set_engine q e _ ih =>
    intro i hi
    rw [(set_engine_keeps_fields m q e).2.1] at hi
    rw [set_engine_keeps_table]
    exact ih i hi

theorem follow_next_null (m : Mem) (i : Nat) : follow_next m none i = none := by
  cases i <;> rfl

/-- In every base queue state reachable from `afl_base_queue_init` by add,
get_next_in_queue, set_directory and set_engine, `base` is NULL and following
`next` from `base` yields NULL for every i, while every table slot below the
size holds an entry. -/
theorem reachable_entries_not_linked (m : Mem) (q : base_queue_t)
    (h : base_queue_reachable m q) :
    afl_get_queue_base_default q = none ∧
    (∀ i, follow_next m q.base i = none) ∧
    (∀ i, i < afl_get_base_queue_size_default q →
      ∃ tbl e, q.queue_entries = some tbl ∧ tbl i = some e ∧
        follow_next m q.base i ≠ tbl i) := by
  have hb : q.base = none := reachable_base_null m q h
  refine ⟨hb, ?_, ?_⟩
  · intro i
    rw [hb]
    exact follow_next_null m i
  · intro i hi
    obtain ⟨tbl, e, h1, h2⟩ := reachable_slots m q h i hi
    refine ⟨tbl, e, h1, h2, ?_⟩
    rw [hb, follow_next_null, h2]
    intro h3
    exact Option.noConfusion h3

/-- C15, the code at the failing input: after `afl_base_queue_init`,
`set_engine` and one `add` of the entry at address 1 (non-null input), the
queue has size 1 with the entry in table slot 0, but the call has written
neither `base` nor a `next` link: `get_queue_base` returns NULL, and following
`next` from `base`, 0 or more times, yields NULL and not the entry of slot 0. -/
theorem C15_add_does_not_link_entry :
    ∃ q evs tbl,
      afl_add_to_queue_default sample_mem fresh_queue 1 = some (q, evs) ∧
      base_queue_reachable sample_mem q ∧
      q.size = 1 ∧ q.queue_entries = some tbl ∧ tbl 0 = some 1 ∧
      afl_get_queue_base_default q = none ∧
      (sample_mem.entries 1).next = none ∧
      (∀ i, follow_next sample_mem q.base i = none) ∧
      follow_next sample_mem q.base 0 ≠ tbl 0 := by
  refine ⟨_, _, _, one_entry_queue_added, one_entry_queue_reachable, rfl, rfl, rfl, rfl, rfl,
    fun i => follow_next_null sample_mem i, ?_⟩
  intro h
  exact Option.noConfusion h

theorem set_engine_base_twice (m m1 : Mem) (b : base_queue_t) (engine : Option Ptr)
    (he : m1.engines = m.engines) :
    afl_set_engine_base_queue_default m1 (afl_set_engine_base_queue_default m b engine) engine =
      afl_set_engine_base_queue_default m b engine := by
  cases engine with
  | none => rfl
  | some e =>
    simp only [afl_set_engine_base_queue_default, he]

theorem set_engine_base_congr (m m1 : Mem) (b : base_queue_t) (engine : Option Ptr)
    (he : m1.engines = m.engines) :
    afl_set_engine_base_queue_default m1 b engine =
      afl_set_engine_base_queue_default m b engine := by
  cases engine with
  | none => rfl
  | some e =>
    simp only [afl_set_engine_base_queue_default, he]

theorem set_engine_base_funcs (m : Mem) (b : base_queue_t) (engine : Option Ptr) :
    (afl_set_engine_base_queue_default m b engine).funcs = b.funcs := by
  cases engine <;> rfl

theorem with_engine_twice (m m1 : Mem) (fq : feedback_queue_t) (engine : Option Ptr)
    (he : m1.engines = m.engines) :
    feedback_queue_with_engine m1 engine (feedback_queue_with_engine m engine fq) =
      feedback_queue_with_engine m engine fq := by
  unfold feedback_queue_with_engine
  simp only [set_engine_base_twice m m1 _ engine he]

theorem with_engine_congr (m m1 : Mem) (fq : feedback_queue_t) (engine : Option Ptr)
    (he : m1.engines = m.engines) :
    feedback_queue_with_engine m1 engine fq = feedback_queue_with_engine m engine fq := by
  unfold feedback_queue_with_engine
  simp only [set_engine_base_congr m m1 _ engine he]

theorem set_engine_loop (o : Outside) (gq : Ptr) (engine : Option Ptr) (is : List Nat) :
    ∀ m : Mem,
      (∀ i ∈ is, ∃ fq, (m.global_queues gq).feedback_queues i = some fq ∧
        (m.feedback_queues fq).base.funcs.set_engine =
          fn_ptr.afl_set_engine_base_queue_default) →
      ∃ m1, set_engine_feedback_queues o gq engine m is = some m1 ∧
        m1.global_queues = m.global_queues ∧ m1.engines = m.engines ∧
        m1.entries = m.entries ∧ m1.feedbacks = m.feedbacks ∧
        (∀ p, m1.feedback_queues p = m.feedback_queues p ∨
          m1.feedback_queues p = feedback_queue_with_engine m engine (m.feedback_queues p)) ∧
        (∀ i ∈ is, ∀ fq, (m.global_queues gq).feedback_queues i = some fq →
          m1.feedback_queues fq =
            feedback_queue_with_engine m engine (m.feedback_queues fq)) := by
  induction is with
  | nil =>
    intro m _
    exact ⟨m, rfl, rfl, rfl, rfl, rfl, fun p => Or.inl rfl,
      fun i hi => absurd hi (List.not_mem_nil i)⟩
  | cons i0 is ih =>
    intro m hslots
    obtain ⟨fq0, hs0, hf0⟩ := hslots i0 (List.mem_cons_self i0 is)
    have hcall : call_set_engine o m (m.feedback_queues fq0).base engine =
        some (afl_set_engine_base_queue_default m (m.feedback_queues fq0).base engine) := by
      unfold call_set_engine
      rw [hf0]
    have hm1 : ∃ m1, m1 = m.set_feedback_queue fq0
        (feedback_queue_with_engine m engine (m.feedback_queues fq0)) := ⟨_, rfl⟩
    obtain ⟨m1, hm1⟩ := hm1
    have hfq_same : m1.feedback_queues fq0 =
        feedback_queue_with_engine m engine (m.feedback_queues fq0) := by
      rw [hm1]
      simp only [Mem.set_feedback_queue, Function.update_same]
    have hfq_other : ∀ p, p ≠ fq0 → m1.feedback_queues p = m.feedback_queues p := by
      intro p hp
      rw [hm1]
      simp only [Mem.set_feedback_queue, Function.update_noteq hp]
    have hg1 : m1.global_queues = m.global_queues := by rw [hm1]; rfl
    have he1 : m1.engines = m.engines := by rw [hm1]; rfl
    have hen1 : m1.entries = m.entries := by rw [hm1]; rfl
    have hfb1 : m1.feedbacks = m.feedbacks := by rw [hm1]; rfl
    have hrec : set_engine_feedback_queues o gq engine m (i0 :: is) =
        set_engine_feedback_queues o gq engine m1 is := by
      rw [hm1]
      simp only [set_engine_feedback_queues, hs0, hcall]
      rfl
    obtain ⟨m2, hrun, hg, he, hen, hfb, hall, hdone⟩ :=
      ih m1 (by
        intro i hi
        obtain ⟨fq, hs, hf⟩ := hslots i (List.mem_cons_of_mem i0 hi)
        refine ⟨fq, by rw [hg1]; exact hs, ?_⟩
        by_cases hp : fq = fq0
        · rw [hp, hfq_same]
          show (afl_set_engine_base_queue_default m (m.feedback_queues fq0).base
            engine).funcs.set_engine = _
          rw [set_engine_base_funcs]
          exact hf0
        · rw [hfq_other fq hp]
          exact hf)
    have hbound : ∀ p, m2.feedback_queues p = m1.feedback_queues p ∨
        m2.feedback_queues p = feedback_queue_with_engine m engine (m1.feedback_queues p) := by
      intro p
      rcases hall p with h | h
      · exact Or.inl h
      · exact Or.inr (by rw [h, with_engine_congr m m1 _ engine he1])
    have hfq0 : m2.feedback_queues fq0 =
        feedback_queue_with_engine m engine (m.feedback_queues fq0) := by
      rcases hbound fq0 with h | h
      · rw [h, hfq_same]
      · rw [h, hfq_same, with_engine_twice m m _ engine rfl]
    refine ⟨m2, hrec.trans hrun, hg.trans hg1, he.trans he1, hen.trans hen1, hfb.trans hfb1,
      ?_, ?_⟩
    · intro p
      by_cases hp : p = fq0
      · rw [hp]
        exact Or.inr hfq0
      · rcases hbound p with h | h
        · exact Or.inl (by rw [h, hfq_other p hp])
        · exact Or.inr (by rw [h, hfq_other p hp])
    · intro i hi fq hs
      by_cases hp : fq = fq0
      · rw [hp]
        exact hfq0
      · rcases List.mem_cons.mp hi with h | h
        · rw [h, hs0] at hs
          simp only [Option.some.injEq] at hs
          exact absurd hs.symm hp
        · have h2 := hdone i h fq (by rw [hg1]; exact hs)
          rw [h2, with_engine_congr m m1 _ engine he1, hfq_other fq hp]

/-- C17: for a global queue whose slots below `feedback_queues_num` hold
feedback queues with the default `set_engine`, the call
`afl_set_engine_global_queue_default` returns; afterwards the base of the global
queue and every held feedback queue have `engine` equal to the given pointer.
For a non-null engine E their `engine_id` is the id of E and the `global_queue`
of E refers to this global queue; for a null engine every `engine_id` is as
before and no engine is written. -/
theorem C17_global_set_engine_fans_out (o : Outside) (m : Mem) (gq : Ptr)
    (engine : Option Ptr)
    (hslots : ∀ i, i < (m.global_queues gq).feedback_queues_num →
      ∃ fq, (m.global_queues gq).feedback_queues i = some fq ∧
        (m.feedback_queues fq).base.funcs.set_engine =
          fn_ptr.afl_set_engine_base_queue_default) :
    ∃ m1, afl_set_engine_global_queue_default o m gq engine = some m1 ∧
      (m1.global_queues gq).base.engine = engine ∧
      (∀ i fq, i < (m.global_queues gq).feedback_queues_num →
        (m.global_queues gq).feedback_queues i = some fq →
        (m1.feedback_queues fq).base.engine = engine) ∧
      (match engine with
        | some E =>
          (m1.global_queues gq).base.engine_id = (m.engines E).id ∧
          (∀ i fq, i < (m.global_queues gq).feedback_queues_num →
            (m.global_queues gq).feedback_queues i = some fq →
            (m1.feedback_queues fq).base.engine_id = (m.engines E).id) ∧
          (m1.engines E).global_queue = some gq ∧ (m1.engines E).id = (m.engines E).id
        | none =>
          (m1.global_queues gq).base.engine_id = (m.global_queues gq).base.engine_id ∧
          (∀ i fq, i < (m.global_queues gq).feedback_queues_num →
            (m.global_queues gq).feedback_queues i = some fq →
            (m1.feedback_queues fq).base.engine_id =
              (m.feedback_queues fq).base.engine_id) ∧
          m1.engines = m.engines) := by
  cases engine with
  | none =>
    obtain ⟨m2, hrun, hg, he, _, _, _, hdone⟩ :=
      set_engine_loop o gq none (List.range (m.global_queues gq).feedback_queues_num)
        (m.set_global_queue gq
          { (m.global_queues gq) with
            base := afl_set_engine_base_queue_default m (m.global_queues gq).base none })
        (by
          intro i hi
          obtain ⟨fq, hs, hf⟩ := hslots i (List.mem_range.mp hi)
          refine ⟨fq, ?_, hf⟩
          simp only [Mem.set_global_queue, Function.update_same]
          exact hs)
    have hfun : afl_set_engine_global_queue_default o m gq none = some m2 := by
      rw [← hrun]
      simp only [afl_set_engine_global_queue_default, Mem.set_global_queue,
        Function.update_same]
    refine ⟨m2, hfun, ?_, ?_, ?_, ?_, ?_⟩
    · rw [hg]
      simp only [Mem.set_global_queue, Function.update_same]
      rfl
    · intro i fq hi hs
      rw [hdone i (List.mem_range.mpr hi) fq (by
        simp only [Mem.set_global_queue, Function.update_same]
        exact hs)]
      rfl
    · rw [hg]
      simp only [Mem.set_global_queue, Function.update_same]
      rfl
    · intro i fq hi hs
      rw [hdone i (List.mem_range.mpr hi) fq (by
        simp only [Mem.set_global_queue, Function.update_same]
        exact hs)]
      rfl
    · rw [he]
      rfl
  | some E =>
    obtain ⟨m2, hrun, hg, he, _, _, _, hdone⟩ :=
      set_engine_loop o gq (some E) (List.range (m.global_queues gq).feedback_queues_num)
        ((m.set_global_queue gq
            { (m.global_queues gq) with
              base :=
                afl_set_engine_base_queue_default m (m.global_queues gq).base (some E) }).set_engine
          E { (m.engines E) with global_queue := some gq })
        (by
          intro i hi
          obtain ⟨fq, hs, hf⟩ := hslots i (List.mem_range.mp hi)
          refine ⟨fq, ?_, hf⟩
          simp only [Mem.set_global_queue, Mem.set_engine, Function.update_same]
          exact hs)
    have hfun : afl_set_engine_global_queue_default o m gq (some E) = some m2 := by
      rw [← hrun]
      simp only [afl_set_engine_global_queue_default, Mem.set_global_queue, Mem.set_engine,
        Function.update_same]
    refine ⟨m2, hfun, ?_, ?_, ?_, ?_, ?_, ?_⟩
    · rw [hg]
      simp only [Mem.set_global_queue, Mem.set_engine, Function.update_same]
      rfl
    · intro i fq hi hs
      rw [hdone i (List.mem_range.mpr hi) fq (by
        simp only [Mem.set_global_queue, Mem.set_engine, Function.update_same]
        exact hs)]
      rfl
    · rw [hg]
      simp only [Mem.set_global_queue, Mem.set_engine, Function.update_same]
      rfl
    · intro i fq hi hs
      rw [hdone i (List.mem_range.mpr hi) fq (by
        simp only [Mem.set_global_queue, Mem.set_engine, Function.update_same]
        exact hs)]
      simp only [feedback_queue_with_engine, afl_set_engine_base_queue_default, Mem.set_engine,
        Mem.set_global_queue, Function.update_same]
    · rw [he]
      simp only [Mem.set_engine, Function.update_same]
    · rw [he]
      simp only [Mem.set_engine, Function.update_same]

/-- C17 at the sample memory: the engine at address 0 is bound to the global
queue at address 0, which holds the feedback queues at the addresses 1 and 2. -/
theorem C17_global_set_engine_fans_out_witness :
    (∀ i, i < (sample_mem.global_queues 0).feedback_queues_num →
      ∃ fq, (sample_mem.global_queues 0).feedback_queues i = some fq ∧
        (sample_mem.feedback_queues fq).base.funcs.set_engine =
          fn_ptr.afl_set_engine_base_queue_default) ∧
    ∃ m1, afl_set_engine_global_queue_default (sample_outside 0) sample_mem 0 (some 0) =
        some m1 ∧
      (m1.global_queues 0).base.engine = some 0 ∧
      (m1.feedback_queues 1).base.engine = some 0 ∧
      (m1.feedback_queues 2).base.engine = some 0 ∧
      (m1.engines 0).global_queue = some 0 :=
  have hs : ∀ i, i < (sample_mem.global_queues 0).feedback_queues_num →
      ∃ fq, (sample_mem.global_queues 0).feedback_queues i = some fq ∧
        (sample_mem.feedback_queues fq).base.funcs.set_engine =
          fn_ptr.afl_set_engine_base_queue_default := by
    intro i hi
    have hi2 : i < 2 := hi
    refine ⟨2 * 0 + i + 1, ?_, ?_⟩
    · show (if i < 2 then some (2 * 0 + i + 1) else none) = _
      rw [if_pos hi2]
    · show (if 2 * 0 + i + 1 = 3 then sample_queue else _).funcs.set_engine = _
      split <;> rfl
  ⟨hs,
    (C17_global_set_engine_fans_out (sample_outside 0) sample_mem 0 (some 0) hs).imp
      fun _ h => ⟨h.1, h.2.1, h.2.2.1 0 1 (by decide) rfl, h.2.2.1 1 2 (by decide) rfl,
        h.2.2.2.2.2.1⟩⟩

/-! ## The hook calls of `add` -/

theorem rel_filter_filterMap {α β γ : Type} (R : γ → β → Prop) (pr : α → Bool) (g : α → γ)
    (f : α → Option β) (l : List α) (h1 : ∀ a, pr a = false → f a = none)
    (h2 : ∀ a, pr a = true → ∃ b, f a = some b ∧ R (g a) b) :
    List.Forall₂ R ((l.filter pr).map g) (l.filterMap f) := by
  induction l with
  | nil => exact List.Forall₂.nil
  | cons a l ih =>
    cases hp : pr a with
    | false =>
      rw [List.filter_cons_of_neg (by simp [hp]), List.filterMap_cons_none (h1 a hp)]
      exact ih
    | true =>
      obtain ⟨b, hb, hr⟩ := h2 a hp
      rw [List.filter_cons_of_pos (by simp [hp]), List.filterMap_cons_some hb, List.map_cons]
      exact List.Forall₂.cons hr ih

theorem rel_flatten_map {ι β γ : Type} (R : γ → β → Prop) (F : ι → List γ) (G : ι → List β)
    (is : List ι) (h : ∀ i ∈ is, List.Forall₂ R (F i) (G i)) :
    List.Forall₂ R (is.map F).flatten (is.map G).flatten := by
  induction is with
  | nil => exact List.Forall₂.nil
  | cons i is ih =>
    simp only [List.map_cons, List.flatten_cons]
    exact List.rel_append (h i (List.mem_cons_self i is))
      (ih fun k hk => h k (List.mem_cons_of_mem i hk))

/-- The hook calls of one driver are the calls for the slots (i, j) that define
the hook, each slot once, stage by stage and within a stage mutator by
mutator. -/
theorem new_entry_hooks_by_slot (m : Mem) (f e : Ptr) :
    ∃ slots : List (Nat × Nat),
      slots.Pairwise stage_then_mutator ∧
      (∀ i j, (i, j) ∈ slots ↔
        (i < (m.fuzz_ones f).stages_num ∧
          j < (m.stages ((m.fuzz_ones f).stages i)).mutators_count ∧
          (m.mutators (mutator_at m f (i, j))).custom_queue_new_entry ≠ none)) ∧
      List.Forall₂
        (fun slot ev => ∃ hook,
          (m.mutators (mutator_at m f slot)).custom_queue_new_entry = some hook ∧
          ev = Event.custom_queue_new_entry hook (mutator_at m f slot) e)
        slots (fuzz_one_new_entry_hooks m f e) := by
  refine ⟨((List.range (m.fuzz_ones f).stages_num).map fun i =>
      ((List.range (m.stages ((m.fuzz_ones f).stages i)).mutators_count).filter fun j =>
        ((m.mutators (mutator_at m f (i, j))).custom_queue_new_entry).isSome).map
        fun j => (i, j)).flatten, ?_, ?_, ?_⟩
  · rw [List.pairwise_flatten]
    constructor
    · intro l hl
      obtain ⟨i, _, rfl⟩ := List.mem_map.mp hl
      rw [List.pairwise_map]
      exact ((List.pairwise_lt_range _).filter _).imp fun hab => Or.inr ⟨rfl, hab⟩
    · rw [List.pairwise_map]
      refine (List.pairwise_lt_range _).imp ?_
      intro a b hab x hx y hy
      obtain ⟨_, _, rfl⟩ := List.mem_map.mp hx
      obtain ⟨_, _, rfl⟩ := List.mem_map.mp hy
      exact Or.inl hab
  · intro i j
    simp only [List.mem_flatten, List.mem_map, List.mem_range, List.mem_filter,
      Option.isSome_iff_ne_none, ne_eq]
    constructor
    · rintro ⟨l, ⟨i1, hi1, rfl⟩, hmem⟩
      simp only [List.mem_map, List.mem_filter, List.mem_range, Prod.mk.injEq,
        Option.isSome_iff_ne_none, ne_eq] at hmem
      obtain ⟨j1, ⟨hj1, hh⟩, rfl, rfl⟩ := hmem
      exact ⟨hi1, hj1, hh⟩
    · rintro ⟨hi, hj, hh⟩
      refine ⟨_, ⟨i, hi, rfl⟩, ?_⟩
      refine List.mem_map.mpr ⟨j, List.mem_filter.mpr ⟨List.mem_range.mpr hj, ?_⟩, rfl⟩
      simp only [Option.isSome_iff_ne_none, ne_eq]
      exact hh
  · unfold fuzz_one_new_entry_hooks
    apply rel_flatten_map
    intro i _
    unfold stage_new_entry_hooks
    apply rel_filter_filterMap
    · intro j hj
      have hnone : (m.mutators (mutator_at m f (i, j))).custom_queue_new_entry = none := by
        cases h : (m.mutators (mutator_at m f (i, j))).custom_queue_new_entry with
        | none => rfl
        | some v => rw [h] at hj; exact absurd hj (by simp)
      simp only [mutator_at] at hnone
      simp only [hnone]
    · intro j hj
      obtain ⟨hook, hh⟩ := Option.isSome_iff_exists.mp hj
      refine ⟨Event.custom_queue_new_entry hook (mutator_at m f (i, j)) e, ?_, hook, hh, rfl⟩
      simp only [mutator_at] at hh ⊢
      simp only [hh]

/-- C18: for an add of an entry e with non-null input on a queue with a bound
engine, the effects are the hook calls, then those of lines 207-218, whatever
the size of the queue and the state of the entry table: every hook call precedes
the write of e into the entry table, and no later effect is a hook call.  When
the table is mapped and has a free slot, the later effects are the write of e
to the table, the send and the size increment, and the call returns; when the
table has no free slot, the hook calls are followed by the fault of the store.
With a `fuzz_one` driver the hook calls are those of the slots (i, j),
i < stages_num and j < mutators_count of stage i, whose mutator defines
`custom_queue_new_entry`: one call with e for each such slot, in stage order and
then mutator order, none for a slot whose mutator has no hook.  Without a driver
there is no hook call. -/
theorem C18_new_entry_hooks_before_store (m : Mem) (q : base_queue_t) (e engine : Ptr)
    (hin : (m.entries e).input ≠ none) (heng : q.engine = some engine) :
    ∃ hooks : List Event,
      afl_add_to_queue_default_steps m q e =
        hooks.map add_step.call ++ add_store_send_incr m q engine e ∧
      (∀ step ∈ add_store_send_incr m q engine e, ∀ hook mutator entry,
        step ≠ add_step.call (Event.custom_queue_new_entry hook mutator entry)) ∧
      (∀ tbl, q.queue_entries = some tbl → q.size < m.map_slots →
        afl_add_to_queue_default_steps m q e =
          hooks.map add_step.call ++
            [add_step.store_entry q.size e, add_step.call (add_broadcast m engine e),
              add_step.incr_size] ∧
        ∃ q1, afl_add_to_queue_default m q e =
          some (q1, hooks ++ [add_broadcast m engine e])) ∧
      (¬ q.size < m.map_slots →
        afl_add_to_queue_default_steps m q e = hooks.map add_step.call ++ [add_step.fault]) ∧
      (∀ hook mutator entry,
        add_broadcast m engine e ≠ Event.custom_queue_new_entry hook mutator entry) ∧
      match (m.engines engine).fuzz_one with
      | none => hooks = []
      | some f =>
        ∃ slots : List (Nat × Nat),
          slots.Pairwise stage_then_mutator ∧
          (∀ i j, (i, j) ∈ slots ↔
            (i < (m.fuzz_ones f).stages_num ∧
              j < (m.stages ((m.fuzz_ones f).stages i)).mutators_count ∧
              (m.mutators (mutator_at m f (i, j))).custom_queue_new_entry ≠ none)) ∧
          List.Forall₂
            (fun slot ev => ∃ hook,
              (m.mutators (mutator_at m f slot)).custom_queue_new_entry = some hook ∧
              ev = Event.custom_queue_new_entry hook (mutator_at m f slot) e)
            slots hooks := by
  refine ⟨match (m.engines engine).fuzz_one with
      | some fuzz_one => fuzz_one_new_entry_hooks m fuzz_one e
      | none => [], add_steps_hooks_first m q e engine hin heng, ?_, ?_,
    add_steps_table_full m q e engine hin heng, ?_, ?_⟩
  · intro step hstep hook mutator entry heq
    rw [heq] at hstep
    unfold add_store_send_incr at hstep
    rcases Option.eq_none_or_eq_some q.queue_entries with htbl | ⟨tbl, htbl⟩
    · simp only [htbl, List.mem_singleton] at hstep
      exact add_step.noConfusion hstep
    · by_cases hcap : q.size < m.map_slots
      · simp only [htbl, if_pos hcap, List.mem_cons, List.mem_singleton, List.not_mem_nil,
          or_false] at hstep
        rcases hstep with h1 | h1 | h1
        · exact add_step.noConfusion h1
        · simp only [add_step.call.injEq] at h1
          exact Event.noConfusion h1
        · exact add_step.noConfusion h1
      · simp only [htbl, if_neg hcap, List.mem_singleton] at hstep
        exact add_step.noConfusion hstep
  · intro tbl htbl hcap
    exact ⟨add_steps_non_null m q e engine tbl hin heng htbl hcap,
      _, add_non_null m q e engine tbl hin heng htbl hcap⟩
  · intro hook mutator entry h
    exact Event.noConfusion h
  · cases hf : (m.engines engine).fuzz_one with
    | none => rfl
    | some f => exact new_entry_hooks_by_slot m f e

/-- C18 at the sample memory: the driver has two stages of three mutators; the
mutators at the addresses 0, 2, 10, 12 define the hook, those at 1 and 11 do
not.  The sample queue holds three entries in a table of 8192 slots. -/
theorem C18_new_entry_hooks_before_store_witness :
    (sample_mem.entries 4).input ≠ none ∧ sample_queue.engine = some 0 ∧
    ∃ hooks : List Event,
      afl_add_to_queue_default_steps sample_mem sample_queue 4 =
        hooks.map add_step.call ++
          [add_step.store_entry sample_queue.size 4,
            add_step.call (add_broadcast sample_mem 0 4), add_step.incr_size] ∧
      ∃ q1, afl_add_to_queue_default sample_mem sample_queue 4 =
        some (q1, hooks ++ [add_broadcast sample_mem 0 4]) :=
  ⟨by decide, rfl,
    (C18_new_entry_hooks_before_store sample_mem sample_queue 4 0 (by decide) rfl).imp
      fun _ h => h.2.2.1 _ rfl (by decide)⟩

theorem scenario_new_entry_hooks :
    afl_add_to_queue_default_steps sample_mem sample_queue 4 =
      [add_step.call (Event.custom_queue_new_entry 0 0 4),
        add_step.call (Event.custom_queue_new_entry 2 2 4),
        add_step.call (Event.custom_queue_new_entry 10 10 4),
        add_step.call (Event.custom_queue_new_entry 12 12 4),
        add_step.store_entry 3 4,
        add_step.call (Event.llmp_client_send (some 1)
          { tag := llmp_tag.LLMP_TAG_NEW_QUEUE_ENTRY, buf := sample_mem.entries 4 }),
        add_step.incr_size] := by
  decide

/-! ## Destroying an entry -/

theorem entry_deinit_by_lines (m : Mem) (e : Ptr) (fuel : Nat)
    (hch : ((deinit_clear (deinit_unlink_prev (deinit_unlink_next m e) e) e).entries
      e).children_num = 0) :
    afl_queue_entry_deinit (fuel + 1) m e =
      some ((deinit_clear (deinit_unlink_prev (deinit_unlink_next m e) e) e).set_entry e
          { ((deinit_clear (deinit_unlink_prev (deinit_unlink_next m e) e) e).entries e) with
            input := none },
        [Event.afl_input_delete
          ((deinit_clear (deinit_unlink_prev (deinit_unlink_next m e) e) e).entries e).input]) := by
  have h : afl_queue_entry_deinit (fuel + 1) m e =
      match
        (if ((deinit_clear (deinit_unlink_prev (deinit_unlink_next m e) e) e).entries
            e).children_num ≠ 0 then
          match
            ((deinit_clear (deinit_unlink_prev (deinit_unlink_next m e) e) e).entries
              e).children.foldl
              (fun acc el =>
                match acc with
                | none => none
                | some (mi, evs) =>
                  match afl_queue_entry_deinit fuel mi el with
                  | none => none
                  | some (mj, evs1) => some (mj, evs ++ evs1))
              (some (deinit_clear (deinit_unlink_prev (deinit_unlink_next m e) e) e, [])) with
          | none => none
          | some (mk, evs) =>
            some (mk.set_entry e { (mk.entries e) with children := [] }, evs)
        else some (deinit_clear (deinit_unlink_prev (deinit_unlink_next m e) e) e, [])) with
      | none => none
      | some (m4, evs) =>
        some (m4.set_entry e { (m4.entries e) with input := none },
          evs ++ [Event.afl_input_delete (m4.entries e).input]) := rfl
  rw [h]
  simp only [hch, ne_eq, not_true_eq_false, if_false, List.nil_append]

theorem unlink_next_entries (m : Mem) (e a : Ptr) :
    (deinit_unlink_next m e).entries a =
      { (m.entries a) with
        prev :=
          if (m.entries e).next = some a then (m.entries e).prev else (m.entries a).prev } := by
  unfold deinit_unlink_next
  cases hn : (m.entries e).next with
  | none => simp
  | some n =>
    simp only [Mem.set_entry, Function.update_apply, Option.some.injEq]
    by_cases ha : a = n
    · subst ha
      simp
    · have ha2 : ¬ n = a := fun h => ha h.symm
      simp [ha, ha2]

theorem unlink_prev_entries (m : Mem) (e a : Ptr) :
    (deinit_unlink_prev m e).entries a =
      { (m.entries a) with
        next :=
          if (m.entries e).prev = some a then (m.entries e).next else (m.entries a).next } := by
  unfold deinit_unlink_prev
  cases hp : (m.entries e).prev with
  | none => simp
  | some p =>
    simp only [Mem.set_entry, Function.update_apply, Option.some.injEq]
    by_cases ha : a = p
    · subst ha
      simp
    · have ha2 : ¬ p = a := fun h => ha h.symm
      simp [ha, ha2]

theorem clear_entries (m : Mem) (e a : Ptr) :
    (deinit_clear m e).entries a =
      if a = e then
        { (m.entries e) with
          next := none, prev := none, queue := none, parent := none, filename := none }
      else m.entries a := by
  simp only [deinit_clear, Mem.set_entry, Function.update_apply]

theorem mem_eq_of_entries (m m1 : Mem) (h0 : m1.map_slots = m.map_slots)
    (h1 : m1.entries = m.entries)
    (h2 : m1.engines = m.engines) (h3 : m1.fuzz_ones = m.fuzz_ones) (h4 : m1.stages = m.stages)
    (h5 : m1.mutators = m.mutators) (h6 : m1.feedbacks = m.feedbacks)
    (h7 : m1.feedback_queues = m.feedback_queues) (h8 : m1.global_queues = m.global_queues) :
    m1 = m := by
  cases m
  cases m1
  simp only at h0 h1 h2 h3 h4 h5 h6 h7 h8
  subst h0 h1 h2 h3 h4 h5 h6 h7 h8
  rfl

theorem unlink_next_slots (m : Mem) (e : Ptr) :
    (deinit_unlink_next m e).map_slots = m.map_slots := by
  unfold deinit_unlink_next
  cases (m.entries e).next <;> rfl

theorem unlink_prev_slots (m : Mem) (e : Ptr) :
    (deinit_unlink_prev m e).map_slots = m.map_slots := by
  unfold deinit_unlink_prev
  cases (m.entries e).prev <;> rfl

theorem unlink_next_frame (m : Mem) (e : Ptr) :
    (deinit_unlink_next m e).engines = m.engines ∧
    (deinit_unlink_next m e).fuzz_ones = m.fuzz_ones ∧
    (deinit_unlink_next m e).stages = m.stages ∧
    (deinit_unlink_next m e).mutators = m.mutators ∧
    (deinit_unlink_next m e).feedbacks = m.feedbacks ∧
    (deinit_unlink_next m e).feedback_queues = m.feedback_queues ∧
    (deinit_unlink_next m e).global_queues = m.global_queues := by
  unfold deinit_unlink_next
  cases (m.entries e).next <;> exact ⟨rfl, rfl, rfl, rfl, rfl, rfl, rfl⟩

theorem unlink_prev_frame (m : Mem) (e : Ptr) :
    (deinit_unlink_prev m e).engines = m.engines ∧
    (deinit_unlink_prev m e).fuzz_ones = m.fuzz_ones ∧
    (deinit_unlink_prev m e).stages = m.stages ∧
    (deinit_unlink_prev m e).mutators = m.mutators ∧
    (deinit_unlink_prev m e).feedbacks = m.feedbacks ∧
    (deinit_unlink_prev m e).feedback_queues = m.feedback_queues ∧
    (deinit_unlink_prev m e).global_queues = m.global_queues := by
  unfold deinit_unlink_prev
  cases (m.entries e).prev <;> exact ⟨rfl, rfl, rfl, rfl, rfl, rfl, rfl⟩

theorem entry_deinit_no_children (m : Mem) (e : Ptr) (fuel : Nat)
    (hch : (m.entries e).children_num = 0) :
    afl_queue_entry_deinit (fuel + 1) m e =
      some ({ m with entries := unlinked_entries m e },
        [Event.afl_input_delete (m.entries e).input]) := by
  have hc : ((deinit_clear (deinit_unlink_prev (deinit_unlink_next m e) e) e).entries
      e).children_num = 0 := by
    rw [clear_entries, if_pos rfl]
    show ((deinit_unlink_prev (deinit_unlink_next m e) e).entries e).children_num = 0
    rw [unlink_prev_entries, unlink_next_entries]
    exact hch
  have hi : ((deinit_clear (deinit_unlink_prev (deinit_unlink_next m e) e) e).entries
      e).input = (m.entries e).input := by
    rw [clear_entries, if_pos rfl]
    show ((deinit_unlink_prev (deinit_unlink_next m e) e).entries e).input = _
    rw [unlink_prev_entries, unlink_next_entries]
  rw [entry_deinit_by_lines m e fuel hc, hi]
  refine congrArg some (Prod.ext ?_ rfl)
  obtain ⟨n1, n2, n3, n4, n5, n6, n7⟩ := unlink_next_frame m e
  obtain ⟨p1, p2, p3, p4, p5, p6, p7⟩ := unlink_prev_frame (deinit_unlink_next m e) e
  apply mem_eq_of_entries
  · exact (unlink_prev_slots (deinit_unlink_next m e) e).trans (unlink_next_slots m e)
  · funext a
    simp only [Mem.set_entry, Function.update_apply]
    by_cases ha : a = e
    · subst ha
      simp only [if_true, clear_entries, unlink_prev_entries, unlink_next_entries,
        unlinked_entries]
    · simp only [ha, if_false, clear_entries, unlink_prev_entries, unlink_next_entries,
        unlinked_entries, ite_self]
  · exact p1.trans n1
  · exact p2.trans n2
  · exact p3.trans n3
  · exact p4.trans n4
  · exact p5.trans n5
  · exact p6.trans n6
  · exact p7.trans n7

theorem linked_mem_forward (a b : Ptr) (h : (linked_mem.entries a).next = some b) :
    (linked_mem.entries b).prev = some a := by
  simp only [linked_mem] at h ⊢
  split at h
  · next ha =>
    simp only [Option.some.injEq] at h
    subst h
    rcases ha with rfl | rfl <;> rfl
  · exact absurd h (by simp)

theorem linked_mem_backward (a b : Ptr) (h : (linked_mem.entries a).prev = some b) :
    (linked_mem.entries b).next = some a := by
  simp only [linked_mem] at h ⊢
  split at h
  · next ha =>
    simp only [Option.some.injEq] at h
    subst h
    rcases ha with rfl | rfl <;> rfl
  · exact absurd h (by simp)

/-- C20: for an entry e without children, in a memory where `a.next == b`
implies `b.prev == a` for all entries and the `prev` of e points back to e,
`afl_queue_entry_deinit(e)` returns (one unit of fuel is enough) and deletes the
input of e.  If e had prev p and next n (another entry) then afterwards
p.next = n and n.prev = p; with only a prev p, p.next is NULL; with only a next
n, n.prev is NULL.  The fields next, prev, queue, parent, filename and input of
e are NULL.  `a.next == b` implies `b.prev == a` for all entries afterwards.
When e had neither prev nor next, no other entry is modified. -/
theorem C20_entry_deinit_splices_siblings (m : Mem) (e : Ptr) (fuel : Nat)
    (hch : (m.entries e).children_num = 0)
    (hfwd : ∀ a b, (m.entries a).next = some b → (m.entries b).prev = some a)
    (hbwd : ∀ p, (m.entries e).prev = some p → (m.entries p).next = some e) :
    ∃ m1,
      afl_queue_entry_deinit (fuel + 1) m e =
        some (m1, [Event.afl_input_delete (m.entries e).input]) ∧
      (∀ p n, (m.entries e).prev = some p → (m.entries e).next = some n → n ≠ e →
        (m1.entries p).next = some n ∧ (m1.entries n).prev = some p) ∧
      (∀ p, (m.entries e).prev = some p → (m.entries e).next = none →
        (m1.entries p).next = none) ∧
      (∀ n, (m.entries e).next = some n → (m.entries e).prev = none →
        (m1.entries n).prev = none) ∧
      ((m1.entries e).next = none ∧ (m1.entries e).prev = none ∧
        (m1.entries e).queue = none ∧ (m1.entries e).parent = none ∧
        (m1.entries e).filename = none ∧ (m1.entries e).input = none) ∧
      (∀ a b, (m1.entries a).next = some b → (m1.entries b).prev = some a) ∧
      ((m.entries e).prev = none → (m.entries e).next = none →
        ∀ a, a ≠ e → m1.entries a = m.entries a) := by
  refine ⟨{ m with entries := unlinked_entries m e }, entry_deinit_no_children m e fuel hch,
    ?_, ?_, ?_, ?_, ?_, ?_⟩
  · intro p n hp hn hne
    have hpe : p ≠ e := by
      intro h
      rw [h] at hp
      have := hbwd e hp
      rw [hn] at this
      exact hne (Option.some.inj this)
    show (unlinked_entries m e p).next = some n ∧ (unlinked_entries m e n).prev = some p
    simp only [unlinked_entries, hpe, hne, if_false, hp, hn, if_true, and_self]
  · intro p hp hn
    have hpe : p ≠ e := by
      intro h
      rw [h] at hp
      have := hbwd e hp
      rw [hn] at this
      exact Option.noConfusion this
    show (unlinked_entries m e p).next = none
    simp only [unlinked_entries, hpe, if_false, hp, hn, if_true]
  · intro n hn hp
    have hne : n ≠ e := by
      intro h
      rw [h] at hn
      have := hfwd e e hn
      rw [hp] at this
      exact Option.noConfusion this
    show (unlinked_entries m e n).prev = none
    simp only [unlinked_entries, hne, if_false, hp, hn, if_true]
  · show (unlinked_entries m e e).next = none ∧ (unlinked_entries m e e).prev = none ∧
      (unlinked_entries m e e).queue = none ∧ (unlinked_entries m e e).parent = none ∧
      (unlinked_entries m e e).filename = none ∧ (unlinked_entries m e e).input = none
    simp only [unlinked_entries, if_true, and_self]
  · intro a b hab
    have hab2 : (unlinked_entries m e a).next = some b := hab
    show (unlinked_entries m e b).prev = some a
    by_cases hae : a = e
    · rw [hae] at hab2
      simp only [unlinked_entries, if_true] at hab2
      exact Option.noConfusion hab2
    · simp only [unlinked_entries, hae, if_false] at hab2
      by_cases hpa : (m.entries e).prev = some a
      · rw [if_pos hpa] at hab2
        have hbe : b ≠ e := by
          intro h
          rw [h] at hab2
          have := hfwd e e hab2
          rw [hpa] at this
          exact hae (Option.some.inj this)
        simp only [unlinked_entries, hbe, if_false, hab2, if_true, hpa]
      · rw [if_neg hpa] at hab2
        have hb := hfwd a b hab2
        have hbe : b ≠ e := by
          intro h
          rw [h] at hb
          exact hpa hb
        have hnb : (m.entries e).next ≠ some b := by
          intro h
          have := hfwd e b h
          rw [hb] at this
          exact hae (Option.some.inj this)
        simp only [unlinked_entries, hbe, if_false, hnb, hb]
  · intro hp hn a hae
    show unlinked_entries m e a = m.entries a
    simp [unlinked_entries, hae, hp, hn]

/-- C20 at the linked sample memory: the entry at address 2 sits between the
entries at the addresses 1 and 3. -/
theorem C20_entry_deinit_splices_siblings_witness :
    (linked_mem.entries 2).children_num = 0 ∧
    (∀ a b, (linked_mem.entries a).next = some b → (linked_mem.entries b).prev = some a) ∧
    (∀ p, (linked_mem.entries 2).prev = some p → (linked_mem.entries p).next = some 2) ∧
    ∃ m1,
      afl_queue_entry_deinit 1 linked_mem 2 =
        some (m1, [Event.afl_input_delete (linked_mem.entries 2).input]) ∧
      (m1.entries 1).next = some 3 ∧ (m1.entries 3).prev = some 1 ∧
      (m1.entries 2).next = none ∧ (m1.entries 2).prev = none ∧
      ∀ a b, (m1.entries a).next = some b → (m1.entries b).prev = some a :=
  ⟨rfl, linked_mem_forward, linked_mem_backward 2,
    (C20_entry_deinit_splices_siblings linked_mem 2 0 rfl linked_mem_forward
      (linked_mem_backward 2)).imp
      fun _ h => ⟨h.1, (h.2.1 1 3 rfl rfl (by decide)).1, (h.2.1 1 3 rfl rfl (by decide)).2,
        h.2.2.2.2.1.1, h.2.2.2.2.1.2.1, h.2.2.2.2.2.1⟩⟩

theorem scenario_entry_deinit :
    (afl_queue_entry_deinit 1 linked_mem 2).map (fun r =>
      ((r.1.entries 1).next, (r.1.entries 1).prev, (r.1.entries 2).next, (r.1.entries 2).prev,
        (r.1.entries 2).input, (r.1.entries 3).next, (r.1.entries 3).prev, r.2)) =
      some (some 3, none, none, none, none, none, some 1,
        [Event.afl_input_delete (some 102)]) :=
  rfl

theorem scenario_entry_deinit_out_of_fuel :
    (afl_queue_entry_deinit 0 linked_mem 2).isNone = true := rfl

/-- C19: after `afl_feedback_queue_init` the base queue of the feedback queue
has size 0 and cursor 0, the `feedback` field is the given feedback, the name is
the given name, or the empty string for a null name, and a non-null feedback has
its `queue` field pointing to this feedback queue (with a null feedback no
feedback object is written). -/
theorem C19_feedback_queue_init_wires (m : Mem) (fq : Ptr) (feedback : Option Ptr)
    (name : Option String) (calloc_result : Option Ptr) (shmem : Option (Nat → Option Ptr)) :
    ((afl_feedback_queue_init m fq feedback name calloc_result
      shmem).2.feedback_queues fq).base.size = 0 ∧
    ((afl_feedback_queue_init m fq feedback name calloc_result
      shmem).2.feedback_queues fq).base.current = 0 ∧
    ((afl_feedback_queue_init m fq feedback name calloc_result
      shmem).2.feedback_queues fq).feedback = feedback ∧
    ((afl_feedback_queue_init m fq feedback name calloc_result
      shmem).2.feedback_queues fq).name =
      some (match name with
        | some n => n
        | none => "") ∧
    (match feedback with
      | some f =>
        ((afl_feedback_queue_init m fq feedback name calloc_result shmem).2.feedbacks f).queue =
          some fq
      | none =>
        (afl_feedback_queue_init m fq feedback name calloc_result shmem).2.feedbacks =
          m.feedbacks) := by
  obtain ⟨_, h2, h3⟩ := init_fields (m.feedback_queues fq).base calloc_result shmem
  cases feedback with
  | none =>
    simp only [afl_feedback_queue_init, Mem.set_feedback_queue, Function.update_same, h2, h3,
      and_self]
  | some f =>
    simp only [afl_feedback_queue_init, Mem.set_feedback_queue, Mem.set_feedback,
      Function.update_same, h2, h3, and_self]

/-! ## The frame of `add` and the return codes of the constructors -/

/-- The frame of a call that returns: for an entry e with non-null input, a call
of `afl_add_to_queue_default` that returns leaves `current`, `base`, `engine`,
`engine_id`, `dirpath`, `save_to_files` and every other field of the queue but
the entry table and the size as they were; the size is the old size plus 1, the
table slot at the old size holds e and every other table slot, those below the
old size included, is unchanged.  The call returns when the engine is bound,
the table is mapped and the size is below `map_slots`.  The effects of any call
are calls that leave queue.c, the write of e to the table slot at the old size,
the size increment, or the closing fault: none of them writes a field of e. -/
theorem add_changes_slot_and_size_only (m : Mem) (q : base_queue_t) (e : Ptr)
    (hin : (m.entries e).input ≠ none) :
    (∀ q1 evs, afl_add_to_queue_default m q e = some (q1, evs) →
      q1.current = q.current ∧ q1.base = q.base ∧ q1.engine = q.engine ∧
      q1.engine_id = q.engine_id ∧ q1.dirpath = q.dirpath ∧
      q1.save_to_files = q.save_to_files ∧ q1.names_id = q.names_id ∧
      q1.fuzz_started = q.fuzz_started ∧ q1.shared_mem = q.shared_mem ∧
      q1.funcs = q.funcs ∧ q1.size = q.size + 1 ∧ q.size < m.map_slots ∧
      ∃ tbl tbl1, q.queue_entries = some tbl ∧ q1.queue_entries = some tbl1 ∧
        tbl1 q.size = some e ∧ (∀ i, i < q.size → tbl1 i = tbl i) ∧
        ∀ i, i ≠ q.size → tbl1 i = tbl i) ∧
    (∀ engine tbl, q.engine = some engine → q.queue_entries = some tbl →
      q.size < m.map_slots →
      ∃ q1 evs, afl_add_to_queue_default m q e = some (q1, evs)) ∧
    (∀ s ∈ afl_add_to_queue_default_steps m q e,
      (∃ ev, s = add_step.call ev) ∨ s = add_step.store_entry q.size e ∨
        s = add_step.incr_size ∨ s = add_step.fault) := by
  refine ⟨?_, ?_, ?_⟩
  · intro q1 evs h
    obtain ⟨engine, tbl, _, htbl, hcap, hq1⟩ := add_result_of_some m q q1 e evs hin h
    rw [hq1]
    refine ⟨rfl, rfl, rfl, rfl, rfl, rfl, rfl, rfl, rfl, rfl, rfl, hcap, tbl, _, htbl, rfl,
      ?_, ?_, ?_⟩
    · exact Function.update_same _ _ _
    · intro i hi
      exact Function.update_noteq (Nat.ne_of_lt hi) _ _
    · intro i hi
      exact Function.update_noteq hi _ _
  · intro engine tbl heng htbl hcap
    exact ⟨_, _, add_non_null m q e engine tbl hin heng htbl hcap⟩
  · intro s hs
    rcases Option.eq_none_or_eq_some q.engine with heng | ⟨engine, heng⟩
    · unfold afl_add_to_queue_default_steps at hs
      rw [if_neg hin, heng] at hs
      exact Or.inr (Or.inr (Or.inr (List.mem_singleton.mp hs)))
    · by_cases hfree : ∃ tbl, q.queue_entries = some tbl ∧ q.size < m.map_slots
      · obtain ⟨tbl, htbl, hcap⟩ := hfree
        rw [add_steps_non_null m q e engine tbl hin heng htbl hcap] at hs
        rcases List.mem_append.mp hs with h1 | h1
        · obtain ⟨ev, _, hev⟩ := List.mem_map.mp h1
          exact Or.inl ⟨ev, hev.symm⟩
        · simp only [List.mem_cons, List.mem_singleton, List.not_mem_nil, or_false] at h1
          rcases h1 with h2 | h2 | h2
          · exact Or.inr (Or.inl h2)
          · exact Or.inl ⟨_, h2⟩
          · exact Or.inr (Or.inr (Or.inl h2))
      · have hs2 : afl_add_to_queue_default_steps m q e =
            (match (m.engines engine).fuzz_one with
              | some fuzz_one => fuzz_one_new_entry_hooks m fuzz_one e
              | none => []).map add_step.call ++ [add_step.fault] := by
          rw [add_steps_hooks_first m q e engine hin heng]
          rcases Option.eq_none_or_eq_some q.queue_entries with htbl | ⟨tbl, htbl⟩
          · simp only [add_store_send_incr, htbl]
          · have hcap : ¬ q.size < m.map_slots := fun h => hfree ⟨tbl, htbl, h⟩
            simp only [add_store_send_incr, htbl, if_neg hcap]
        rw [hs2] at hs
        rcases List.mem_append.mp hs with h1 | h1
        · obtain ⟨ev, _, hev⟩ := List.mem_map.mp h1
          exact Or.inl ⟨ev, hev.symm⟩
        · exact Or.inr (Or.inr (Or.inr (List.mem_singleton.mp h1)))

theorem scenario_add_frame :
    (afl_add_to_queue_default sample_mem sample_queue 4).map (fun r =>
      (r.1.current, r.1.base, r.1.engine, r.1.engine_id, r.1.dirpath, r.1.save_to_files,
        r.1.size, r.1.queue_entries.map fun t => [t 0, t 1, t 2, t 3, t 4])) =
      some (0, none, some 0, 7, none, false, 4,
        some [some 1, some 2, some 3, some 4, none]) ∧
    (sample_mem.entries 4).next = none ∧ (sample_mem.entries 4).prev = none ∧
    (sample_mem.entries 4).queue = none :=
  ⟨rfl, rfl, rfl, rfl⟩

/-- C22: `afl_base_queue_init` returns AFL_RET_ALLOC when `calloc` for the
shared-memory descriptor fails or when `afl_shmem_init` for the `MAP_SIZE`
region fails, and AFL_RET_SUCCESS when both succeed; `afl_feedback_queue_init`
and `afl_global_queue_init` return AFL_RET_SUCCESS for every input, also when
the embedded `afl_base_queue_init` returned AFL_RET_ALLOC. -/
theorem C22_init_return_codes (q : base_queue_t) (m : Mem) (p : Ptr)
    (feedback : Option Ptr) (name : Option String) (calloc_result : Option Ptr)
    (shmem : Option (Nat → Option Ptr)) :
    (calloc_result = none →
      (afl_base_queue_init q calloc_result shmem).1 = afl_ret_t.AFL_RET_ALLOC) ∧
    (shmem = none →
      (afl_base_queue_init q calloc_result shmem).1 = afl_ret_t.AFL_RET_ALLOC) ∧
    (∀ d t, calloc_result = some d → shmem = some t →
      (afl_base_queue_init q calloc_result shmem).1 = afl_ret_t.AFL_RET_SUCCESS) ∧
    (afl_feedback_queue_init m p feedback name calloc_result shmem).1 =
      afl_ret_t.AFL_RET_SUCCESS ∧
    (afl_global_queue_init m p calloc_result shmem).1 = afl_ret_t.AFL_RET_SUCCESS ∧
    ((afl_base_queue_init (m.feedback_queues p).base calloc_result shmem).1 =
        afl_ret_t.AFL_RET_ALLOC →
      (afl_feedback_queue_init m p feedback name calloc_result shmem).1 =
        afl_ret_t.AFL_RET_SUCCESS) ∧
    ((afl_base_queue_init (m.global_queues p).base calloc_result shmem).1 =
        afl_ret_t.AFL_RET_ALLOC →
      (afl_global_queue_init m p calloc_result shmem).1 = afl_ret_t.AFL_RET_SUCCESS) := by
  refine ⟨?_, ?_, ?_, rfl, rfl, fun _ => rfl, fun _ => rfl⟩
  · intro h
    subst h
    rfl
  · intro h
    subst h
    cases calloc_result <;> rfl
  · intro d t h1 h2
    subst h1 h2
    rfl

/-- C22 at the sample memory: the shared-memory region cannot be acquired. -/
theorem C22_init_return_codes_witness :
    (afl_base_queue_init raw_queue (some 0) none).1 = afl_ret_t.AFL_RET_ALLOC ∧
    (afl_base_queue_init (sample_mem.feedback_queues 1).base (some 0) none).1 =
      afl_ret_t.AFL_RET_ALLOC ∧
    (afl_feedback_queue_init sample_mem 1 none none (some 0) none).1 =
      afl_ret_t.AFL_RET_SUCCESS ∧
    (afl_base_queue_init (sample_mem.global_queues 1).base (some 0) none).1 =
      afl_ret_t.AFL_RET_ALLOC ∧
    (afl_global_queue_init sample_mem 1 (some 0) none).1 = afl_ret_t.AFL_RET_SUCCESS :=
  ⟨(C22_init_return_codes raw_queue sample_mem 1 none none (some 0) none).2.1 rfl, rfl,
    (C22_init_return_codes raw_queue sample_mem 1 none none (some 0) none).2.2.2.2.2.1 rfl, rfl,
    (C22_init_return_codes raw_queue sample_mem 1 none none (some 0) none).2.2.2.2.2.2 rfl⟩

theorem scenario_init_return_codes :
    (afl_base_queue_init raw_queue none (some fun _ => none)).1 = afl_ret_t.AFL_RET_ALLOC ∧
    (afl_base_queue_init raw_queue (some 0) none).1 = afl_ret_t.AFL_RET_ALLOC ∧
    (afl_base_queue_init raw_queue (some 0) (some fun _ => none)).1 =
      afl_ret_t.AFL_RET_SUCCESS ∧
    (afl_feedback_queue_init sample_mem 1 none none none none).1 =
      afl_ret_t.AFL_RET_SUCCESS ∧
    (afl_global_queue_init sample_mem 1 none none).1 = afl_ret_t.AFL_RET_SUCCESS := by
  decide

/-! ## The entry table at its capacity

The store of queue.c:207 is not guarded by a comparison of `size` with the
number of slots of the `MAP_SIZE` region.  The sample memory has a table of
8192 slots; the entries at the addresses 1 .. 8192 fill it. -/

theorem add_all_reachable (m : Mem) (es : List Ptr) :
    ∀ (q q1 : base_queue_t) (evs : List Event), base_queue_reachable m q →
      add_all m q es = some (q1, evs) → base_queue_reachable m q1 := by
  induction es with
  | nil =>
    intro q q1 evs hq h
    simp only [add_all, Option.some.injEq, Prod.mk.injEq] at h
    rw [← h.1]
    exact hq
  | cons e es ih =>
    intro q q1 evs hq h
    rcases hadd : afl_add_to_queue_default m q e with _ | ⟨q2, ev1⟩
    · simp only [add_all, hadd] at h
      exact absurd h (by simp)
    · rcases hrest : add_all m q2 es with _ | ⟨q3, ev2⟩
      · simp only [add_all, hadd, hrest] at h
        exact absurd h (by simp)
      · simp only [add_all, hadd, hrest, Option.some.injEq, Prod.mk.injEq] at h
        rw [← h.1]
        exact ih q2 q3 ev2 (base_queue_reachable.add q q2 e ev1 hq hadd) hrest

theorem sample_entries_non_null (n : Nat) :
    ∀ e ∈ List.range' 1 n, (sample_mem.entries e).input ≠ none := by
  intro e he
  have h1 : 1 ≤ e := (List.mem_range'_1.mp he).1
  show (if e = 0 then none else some (100 + e)) ≠ none
  rw [if_neg (by omega)]
  exact Option.some_ne_none _

/-- The fresh queue after the entries at the addresses 1 .. n have been added,
for an n that is not above the number of slots: a reachable state of size n. -/
theorem sample_filled_queue (n : Nat) (hn : n ≤ sample_mem.map_slots) :
    ∃ q evs tbl,
      add_all sample_mem fresh_queue (List.range' 1 n) = some (q, evs) ∧
      base_queue_reachable sample_mem q ∧ q.size = n ∧ q.engine = some 0 ∧
      q.queue_entries = some tbl ∧ ∀ i, i < n → tbl i = some (i + 1) := by
  have hlen : (List.range' 1 n).length = n := List.length_range' 1 1 n
  have hsz : fresh_queue.size = 0 := rfl
  obtain ⟨tbl1, evs, h1, h2, _⟩ :=
    add_all_non_null sample_mem 0 (List.range' 1 n) fresh_queue (fun _ => none) rfl rfl
      (sample_entries_non_null n)
      (by
        rw [hlen, hsz, Nat.zero_add]
        exact hn)
  refine ⟨_, evs, tbl1, h1, add_all_reachable sample_mem _ _ _ _ fresh_queue_reachable h1,
    ?_, rfl, rfl, ?_⟩
  · show fresh_queue.size + (List.range' 1 n).length = n
    rw [hlen, hsz, Nat.zero_add]
  · intro i hi
    have h3 := h2 i (by rw [hlen]; exact hi)
    rw [hsz, Nat.zero_add] at h3
    rw [h3]
    simp only [List.get_eq_getElem, List.getElem_range', Nat.one_mul]
    exact congrArg some (Nat.add_comm 1 i)

/-- More entries than the table of the sample memory has slots: the adds of the
entries at the addresses 1 .. n have no result. -/
theorem sample_overfilled_queue (n : Nat) (hn : sample_mem.map_slots < n) :
    add_all sample_mem fresh_queue (List.range' 1 n) = none := by
  have hlen : (List.range' 1 n).length = n := List.length_range' 1 1 n
  have hsz : fresh_queue.size = 0 := rfl
  apply add_all_past_capacity sample_mem 0 (List.range' 1 n) fresh_queue (fun _ => none)
    rfl rfl (sample_entries_non_null n)
  · rw [hsz]
    exact Nat.zero_le _
  · rw [hlen, hsz, Nat.zero_add]
    exact hn

/-- C1, the code at the failing input: the table of the sample memory has 8192
slots.  Starting from the fresh queue bound to the engine at address 0, the
adds of the 8192 entries at the addresses 1 .. 8192 (all with a non-null input)
return and leave a queue of size 8192; the adds of the 8193 entries at the
addresses 1 .. 8193 do not: the last store is at index 8192, outside the table,
and the sequence has no result. -/
theorem C1_add_past_table_capacity :
    sample_mem.map_slots = 8192 ∧
    (∀ e ∈ List.range' 1 8193, (sample_mem.entries e).input ≠ none) ∧
    (∃ q evs, add_all sample_mem fresh_queue (List.range' 1 8192) = some (q, evs) ∧
      q.size = 8192) ∧
    add_all sample_mem fresh_queue (List.range' 1 8193) = none := by
  refine ⟨rfl, sample_entries_non_null 8193, ?_, sample_overfilled_queue 8193 (by decide)⟩
  obtain ⟨q, evs, _, h1, _, h3, _⟩ := sample_filled_queue 8192 (by decide)
  exact ⟨q, evs, h1, h3⟩

/-- C2, the code at the failing input: after the adds of the entries at the
addresses 1 .. 8192 the queue is reachable, has a bound engine and size 8192,
which is the number of slots of its table; `afl_add_to_queue_default` of the
entry at address 8193 (non-null input) stores outside the table and has no
result: the size is not the old size plus 1 with the entry in the last slot. -/
theorem C2_add_on_full_table :
    ∃ q evs,
      add_all sample_mem fresh_queue (List.range' 1 8192) = some (q, evs) ∧
      base_queue_reachable sample_mem q ∧ q.engine = some 0 ∧
      q.size = sample_mem.map_slots ∧ (sample_mem.entries 8193).input ≠ none ∧
      afl_add_to_queue_default sample_mem q 8193 = none := by
  obtain ⟨q, evs, _, h1, h2, h3, h4, _⟩ := sample_filled_queue 8192 (by decide)
  have hin : (sample_mem.entries 8193).input ≠ none :=
    sample_entries_non_null 8194 8193 (List.mem_range'_1.mpr (by omega))
  refine ⟨q, evs, h1, h2, h4, h3, hin, add_table_full sample_mem q 8193 hin ?_⟩
  rw [h3]
  exact Nat.lt_irrefl 8192

/-- C21, the code at the failing input: on the reachable queue of size 8192,
whose table has 8192 slots, the effects of `afl_add_to_queue_default` of the
entry at address 8193 are the four hook calls and then the fault of the store
of line 207: the index 8192 is not that of a table slot, so what the call
writes is not the table slot at the old size, and no effect of the call is a
write to a table slot or an increment of the size. -/
theorem C21_store_outside_full_table :
    ∃ q evs,
      add_all sample_mem fresh_queue (List.range' 1 8192) = some (q, evs) ∧
      base_queue_reachable sample_mem q ∧ q.size = 8192 ∧
      ¬ q.size < sample_mem.map_slots ∧
      afl_add_to_queue_default_steps sample_mem q 8193 =
        [add_step.call (Event.custom_queue_new_entry 0 0 8193),
          add_step.call (Event.custom_queue_new_entry 2 2 8193),
          add_step.call (Event.custom_queue_new_entry 10 10 8193),
          add_step.call (Event.custom_queue_new_entry 12 12 8193),
          add_step.fault] ∧
      (∀ index entry,
        add_step.store_entry index entry ∉ afl_add_to_queue_default_steps sample_mem q 8193) ∧
      add_step.incr_size ∉ afl_add_to_queue_default_steps sample_mem q 8193 := by
  obtain ⟨q, evs, _, h1, h2, h3, h4, _⟩ := sample_filled_queue 8192 (by decide)
  have hin : (sample_mem.entries 8193).input ≠ none :=
    sample_entries_non_null 8194 8193 (List.mem_range'_1.mpr (by omega))
  have hcap : ¬ q.size < sample_mem.map_slots := by
    rw [h3]
    exact Nat.lt_irrefl 8192
  have hs : afl_add_to_queue_default_steps sample_mem q 8193 =
      [add_step.call (Event.custom_queue_new_entry 0 0 8193),
        add_step.call (Event.custom_queue_new_entry 2 2 8193),
        add_step.call (Event.custom_queue_new_entry 10 10 8193),
        add_step.call (Event.custom_queue_new_entry 12 12 8193),
        add_step.fault] := by
    rw [add_steps_table_full sample_mem q 8193 0 hin h4 hcap]
    decide
  refine ⟨q, evs, h1, h2, h3, hcap, hs, ?_, ?_⟩
  · intro index entry hmem
    rw [hs] at hmem
    simp at hmem
  · intro hmem
    rw [hs] at hmem
    simp at hmem

end LibAFL
